import Mathlib

/-!
Verification of the x402 payment-protocol core, as implemented in this
repository: the strict base64 codec (`typescript/packages/x402/src/shared/base64.ts`),
the payment-header codec, the local facilitator (`go/bin/facilitator_local.go`),
the resource-server verification flow
(`examples/typescript/servers/advanced/index.ts`) and the client payment
interceptor (`typescript/packages/x402-axios/src/index.ts`).

Each TypeScript/Go function is embedded as an executable Lean definition that
follows the source line by line; machine strings are lists of characters,
JavaScript string values that may be absent are `Option`, and fallible
operations return `Except` or `Option`.
-/

namespace X402

/-! ## Base64 codec (`shared/base64.ts`)

`normalizeBase64Input` strips whitespace (the `\s+` regex) and then rejects
the string unless it is nonempty, has length divisible by 4 and matches the
anchored regex of base64 bodies followed by at most two padding characters.
`safeBase64Encode`/`safeBase64Decode` mirror the `btoa`/`atob` code path,
which treats every character of the JavaScript string as one byte. -/

/-- Characters removed by `BASE64_TRIM_REGEX` (the JavaScript `\s` class,
restricted to its ASCII members, which are the ones that occur in headers). -/
def isJsWhitespace (c : Char) : Bool :=
  c.toNat = 32 || c.toNat = 9 || c.toNat = 10 || c.toNat = 13 ||
    c.toNat = 11 || c.toNat = 12

def stripWhitespace (s : List Char) : List Char :=
  s.filter (fun c => !isJsWhitespace c)

/-- Membership in the base64 alphabet `[A-Za-z0-9+/]`. -/
def isBase64Alphabet (c : Char) : Bool :=
  (65 ≤ c.toNat && c.toNat ≤ 90) || (97 ≤ c.toNat && c.toNat ≤ 122) ||
    (48 ≤ c.toNat && c.toNat ≤ 57) || c.toNat = 43 || c.toNat = 47

/-- The anchored test of `Base64EncodedRegex`: a run of alphabet characters
followed by at most two `=`. -/
def matchesBase64Regex (s : List Char) : Bool :=
  let pad := s.dropWhile (fun c => isBase64Alphabet c)
  pad.all (· = '=') && pad.length ≤ 2

/-- The two failure modes of the codec: `invalidBase64` is the
`Invalid base64 string` throw of `normalizeBase64Input`, `invalidJson` the
`Invalid JSON payload` throw of `safeBase64DecodeJson`. -/
inductive Base64Error where
  | invalidBase64
  | invalidJson
deriving Repr, DecidableEq

def normalizeBase64Input (s : List Char) : Except Base64Error (List Char) :=
  let n := stripWhitespace s
  if n.length = 0 || n.length % 4 != 0 || !matchesBase64Regex n then
    .error .invalidBase64
  else
    .ok n

/-- The base64 alphabet in index order. -/
def base64Chars : List Char :=
  ['A', 'B', 'C', 'D', 'E', 'F', 'G', 'H', 'I', 'J', 'K', 'L', 'M',
   'N', 'O', 'P', 'Q', 'R', 'S', 'T', 'U', 'V', 'W', 'X', 'Y', 'Z',
   'a', 'b', 'c', 'd', 'e', 'f', 'g', 'h', 'i', 'j', 'k', 'l', 'm',
   'n', 'o', 'p', 'q', 'r', 's', 't', 'u', 'v', 'w', 'x', 'y', 'z',
   '0', '1', '2', '3', '4', '5', '6', '7', '8', '9', '+', '/']

def sextetChar (n : Nat) : Char := base64Chars.getD n 'A'

def sextetValue (c : Char) : Option Nat :=
  if 65 ≤ c.toNat && c.toNat ≤ 90 then some (c.toNat - 65)
  else if 97 ≤ c.toNat && c.toNat ≤ 122 then some (c.toNat - 97 + 26)
  else if 48 ≤ c.toNat && c.toNat ≤ 57 then some (c.toNat - 48 + 52)
  else if c.toNat = 43 then some 62
  else if c.toNat = 47 then some 63
  else none

/-- Byte-level base64 production, three input bytes per four output
characters, with `=` padding on a short final group. -/
def encodeQuads : List Nat → List Char
  | [] => []
  | [a] =>
    [sextetChar (a / 4 % 64), sextetChar (a % 4 * 16), '=', '=']
  | [a, b] =>
    [sextetChar (a / 4 % 64), sextetChar ((a % 4 * 16 + b / 16) % 64),
     sextetChar (b % 16 * 4 % 64), '=']
  | a :: b :: c :: rest =>
    sextetChar (a / 4 % 64) :: sextetChar ((a % 4 * 16 + b / 16) % 64) ::
      sextetChar ((b % 16 * 4 + c / 64) % 64) :: sextetChar (c % 64) ::
      encodeQuads rest

/-- `btoa` on a JavaScript string: every UTF-16 unit is one byte.  (For
inputs containing a character above `U+00FF` the browser `btoa` throws; all
theorems below use it on strings below that bound.) -/
def safeBase64Encode (s : List Char) : List Char :=
  encodeQuads (s.map Char.toNat)

/-- Byte-level base64 consumption, four characters per group, accepting `=`
padding only at the very end. -/
def decodeQuads : List Char → Option (List Nat)
  | [] => some []
  | c1 :: c2 :: c3 :: c4 :: rest =>
    if c3 = '=' then
      if c4 = '=' && rest.isEmpty then
        (sextetValue c1).bind fun a =>
          (sextetValue c2).map fun b => [a * 4 + b / 16]
      else none
    else if c4 = '=' then
      if rest.isEmpty then
        (sextetValue c1).bind fun a =>
          (sextetValue c2).bind fun b =>
            (sextetValue c3).map fun c =>
              [a * 4 + b / 16, b % 16 * 16 + c / 4]
      else none
    else
      (sextetValue c1).bind fun a =>
        (sextetValue c2).bind fun b =>
          (sextetValue c3).bind fun c =>
            (sextetValue c4).bind fun d =>
              (decodeQuads rest).map fun tail =>
                (a * 4 + b / 16) :: (b % 16 * 16 + c / 4) :: (c % 4 * 64 + d) :: tail
  | _ => none

/-- `safeBase64Decode`: normalize (strip whitespace, validate) and only then
decode, as the source does. -/
def safeBase64Decode (s : List Char) : Except Base64Error (List Char) :=
  match normalizeBase64Input s with
  | .error e => .error e
  | .ok n =>
    match decodeQuads n with
    | some bytes => .ok (bytes.map Char.ofNat)
    | none => .error .invalidBase64

/-! ### Facts about the base64 alphabet tables -/

theorem sextetValue_sextetChar_fin :
    ∀ i : Fin 64, sextetValue (sextetChar i.val) = some i.val := by decide

theorem sextetValue_sextetChar {n : Nat} (h : n < 64) :
    sextetValue (sextetChar n) = some n :=
  sextetValue_sextetChar_fin ⟨n, h⟩

theorem isBase64Alphabet_sextetChar_fin :
    ∀ i : Fin 64, isBase64Alphabet (sextetChar i.val) = true := by decide

theorem isBase64Alphabet_sextetChar (n : Nat) :
    isBase64Alphabet (sextetChar n) = true := by
  rcases Nat.lt_or_ge n 64 with h | h
  · exact isBase64Alphabet_sextetChar_fin ⟨n, h⟩
  · have : sextetChar n = 'A' := by
      unfold sextetChar
      exact List.getD_eq_default _ _ (by simp [base64Chars]; omega)
    rw [this]; decide

theorem sextetChar_ne_pad (n : Nat) : sextetChar n ≠ '=' := by
  intro h
  have := isBase64Alphabet_sextetChar n
  rw [h] at this
  simp [isBase64Alphabet] at this

theorem sextetValue_isSome_of_alphabet {c : Char} (h : isBase64Alphabet c = true) :
    (sextetValue c).isSome := by
  unfold isBase64Alphabet at h
  unfold sextetValue
  simp only [Bool.or_eq_true, Bool.and_eq_true, decide_eq_true_eq] at h
  repeat' split
  all_goals simp_all
  omega

theorem not_whitespace_of_alphabet {c : Char} (h : isBase64Alphabet c = true) :
    isJsWhitespace c = false := by
  unfold isBase64Alphabet at h
  unfold isJsWhitespace
  simp only [Bool.or_eq_true, Bool.and_eq_true, decide_eq_true_eq] at h ⊢
  simp only [Bool.or_eq_false_iff, decide_eq_false_iff_not]
  omega

/-! ### The encoder's output always passes `normalizeBase64Input` -/

theorem encodeQuads_not_ws (bs : List Nat) :
    ∀ c ∈ encodeQuads bs, isJsWhitespace c = false := by
  induction bs using encodeQuads.induct with
  | case1 => intro c hc; simp [encodeQuads] at hc
  | case2 a =>
    intro c hc
    simp only [encodeQuads, List.mem_cons, List.mem_singleton] at hc
    rcases hc with h | h | h | h | h
    all_goals first
      | (subst h; decide)
      | (subst h; exact not_whitespace_of_alphabet (isBase64Alphabet_sextetChar _))
      | simp at h
  | case3 a b =>
    intro c hc
    simp only [encodeQuads, List.mem_cons, List.mem_singleton] at hc
    rcases hc with h | h | h | h | h
    all_goals first
      | (subst h; decide)
      | (subst h; exact not_whitespace_of_alphabet (isBase64Alphabet_sextetChar _))
      | simp at h
  | case4 a b c rest ih =>
    intro d hd
    simp only [encodeQuads, List.mem_cons] at hd
    rcases hd with h | h | h | h | h
    · subst h; exact not_whitespace_of_alphabet (isBase64Alphabet_sextetChar _)
    · subst h; exact not_whitespace_of_alphabet (isBase64Alphabet_sextetChar _)
    · subst h; exact not_whitespace_of_alphabet (isBase64Alphabet_sextetChar _)
    · subst h; exact not_whitespace_of_alphabet (isBase64Alphabet_sextetChar _)
    · exact ih d h

theorem encodeQuads_length (bs : List Nat) :
    (encodeQuads bs).length % 4 = 0 := by
  induction bs using encodeQuads.induct with
  | case1 => rfl
  | case2 a => simp [encodeQuads]
  | case3 a b => simp [encodeQuads]
  | case4 a b c rest ih => simp [encodeQuads]; omega

theorem encodeQuads_regex (bs : List Nat) :
    matchesBase64Regex (encodeQuads bs) = true := by
  induction bs using encodeQuads.induct with
  | case1 => rfl
  | case2 a =>
    simp [encodeQuads, matchesBase64Regex, List.dropWhile,
      isBase64Alphabet_sextetChar, show isBase64Alphabet '=' = false from rfl]
  | case3 a b =>
    simp [encodeQuads, matchesBase64Regex, List.dropWhile,
      isBase64Alphabet_sextetChar, show isBase64Alphabet '=' = false from rfl]
  | case4 a b c rest ih =>
    simpa [encodeQuads, matchesBase64Regex, List.dropWhile,
      isBase64Alphabet_sextetChar] using ih

theorem encodeQuads_ne_nil {bs : List Nat} (h : bs ≠ []) :
    encodeQuads bs ≠ [] := by
  match bs, h with
  | [a], _ => simp [encodeQuads]
  | [a, b], _ => simp [encodeQuads]
  | a :: b :: c :: rest, _ => simp [encodeQuads]

theorem normalize_encodeQuads {bs : List Nat} (h : bs ≠ []) :
    normalizeBase64Input (encodeQuads bs) = .ok (encodeQuads bs) := by
  have hs : stripWhitespace (encodeQuads bs) = encodeQuads bs := by
    unfold stripWhitespace
    rw [List.filter_eq_self]
    intro c hc
    simp [encodeQuads_not_ws bs c hc]
  unfold normalizeBase64Input
  rw [hs]
  have h1 := encodeQuads_length bs
  have h2 := encodeQuads_regex bs
  have h3 := encodeQuads_ne_nil h
  simp [h1, h2, List.length_eq_zero, h3]

/-! ### Decoding inverts encoding, byte for byte -/

theorem decodeQuads_encodeQuads :
    ∀ bs : List Nat, (∀ b ∈ bs, b < 256) →
      decodeQuads (encodeQuads bs) = some bs := by
  intro bs
  induction bs using encodeQuads.induct with
  | case1 => intro _; rfl
  | case2 a =>
    intro h
    have ha : a < 256 := h a (by simp)
    simp only [encodeQuads, decodeQuads]
    rw [sextetValue_sextetChar (by omega), sextetValue_sextetChar (by omega)]
    simp
    omega
  | case3 a b =>
    intro h
    have ha : a < 256 := h a (by simp)
    have hb : b < 256 := h b (by simp)
    simp only [encodeQuads, decodeQuads]
    rw [if_neg (sextetChar_ne_pad _)]
    rw [sextetValue_sextetChar (by omega), sextetValue_sextetChar (by omega),
      sextetValue_sextetChar (by omega)]
    simp
    omega
  | case4 a b c rest ih =>
    intro h
    have ha : a < 256 := h a (by simp)
    have hb : b < 256 := h b (by simp)
    have hc : c < 256 := h c (by simp)
    have hrest : ∀ x ∈ rest, x < 256 := fun x hx => h x (by simp [hx])
    simp only [encodeQuads, decodeQuads]
    rw [if_neg (sextetChar_ne_pad _), if_neg (sextetChar_ne_pad _)]
    rw [sextetValue_sextetChar (by omega), sextetValue_sextetChar (by omega),
      sextetValue_sextetChar (by omega), sextetValue_sextetChar (by omega)]
    rw [ih hrest]
    simp
    omega

theorem safeBase64Decode_encode {s : List Char} (hne : s ≠ [])
    (hb : ∀ c ∈ s, c.toNat < 256) :
    safeBase64Decode (safeBase64Encode s) = .ok s := by
  have hmapne : s.map Char.toNat ≠ [] := by simpa using hne
  have hbytes : ∀ b ∈ s.map Char.toNat, b < 256 := by
    intro b hbm
    rcases List.mem_map.mp hbm with ⟨c, hc, rfl⟩
    exact hb c hc
  have hmap : (s.map Char.toNat).map Char.ofNat = s := by
    rw [List.map_map]
    conv_rhs => rw [show s = s.map id from (List.map_id s).symm]
    exact List.map_congr_left fun c _ => Char.ofNat_toNat c
  simp only [safeBase64Encode, safeBase64Decode, normalize_encodeQuads hmapne,
    decodeQuads_encodeQuads _ hbytes, hmap]

/-! ### Characterizing exactly which inputs `safeBase64Decode` rejects

The specification decomposes `Base64EncodedRegex` failure into two
conditions: a character outside `[A-Za-z0-9+/=]`, or padding that is not a
trailing run of at most two `=`.  The two predicates below state those
conditions literally; `matchesBase64Regex_iff` proves the decomposition. -/

def containsInvalidBase64Char (s : List Char) : Bool :=
  s.any fun c => !(isBase64Alphabet c || c = '=')

/-- Padding is correct when at most two `=` occur and everything from the
first `=` on is `=` (so the `=` form a trailing run of length at most 2). -/
def incorrectPadding (s : List Char) : Bool :=
  !(decide ((s.filter fun c => c = '=').length ≤ 2) &&
    ((s.dropWhile fun c => c ≠ '=').all fun c => c = '='))

theorem isBase64Alphabet_ne_pad {c : Char} (h : isBase64Alphabet c = true) :
    c ≠ '=' := by
  intro hc
  subst hc
  simp [isBase64Alphabet] at h

theorem matchesBase64Regex_iff (s : List Char) :
    matchesBase64Regex s = true ↔
      containsInvalidBase64Char s = false ∧ incorrectPadding s = false := by
  induction s with
  | nil => decide
  | cons c t ih =>
    by_cases hb : isBase64Alphabet c = true
    · have hc : ¬(c = '=') := isBase64Alphabet_ne_pad hb
      simp only [matchesBase64Regex, containsInvalidBase64Char,
        incorrectPadding] at ih ⊢
      simp [List.dropWhile_cons, List.filter_cons, hb, hc] at ih ⊢
      exact ih
    · by_cases hpad : c = '='
      · subst hpad
        simp only [matchesBase64Regex, containsInvalidBase64Char,
          incorrectPadding]
        simp [List.dropWhile_cons, List.filter_cons,
          show isBase64Alphabet '=' = false from rfl]
        constructor
        · rintro ⟨hall, hlen⟩
          have hfil : t.filter (fun x => decide (x = '=')) = t :=
            List.filter_eq_self.mpr fun a ha => by simp [hall a ha]
          exact ⟨fun x hx _ => hall x hx, by rw [hfil]; exact hlen, hall⟩
        · rintro ⟨-, hlen, hall⟩
          have hfil : t.filter (fun x => decide (x = '=')) = t :=
            List.filter_eq_self.mpr fun a ha => by simp [hall a ha]
          rw [hfil] at hlen
          exact ⟨hall, hlen⟩
      · simp only [matchesBase64Regex, containsInvalidBase64Char,
          incorrectPadding]
        simp [List.dropWhile_cons, List.filter_cons, hb, hpad]

theorem decodeQuads_isSome : ∀ n : List Char, n.length % 4 = 0 →
    matchesBase64Regex n = true → (decodeQuads n).isSome := by
  intro n
  induction n using decodeQuads.induct with
  | case1 => intro _ _; simp [decodeQuads]
  | case2 c1 c2 c4 rest h =>
    intro hlen hre
    simp only [Bool.and_eq_true, decide_eq_true_eq, List.isEmpty_iff] at h
    obtain ⟨rfl, rfl⟩ := h
    by_cases hb1 : isBase64Alphabet c1 = true
    · by_cases hb2 : isBase64Alphabet c2 = true
      · obtain ⟨a, ha⟩ := Option.isSome_iff_exists.mp
          (sextetValue_isSome_of_alphabet hb1)
        obtain ⟨b, hbv⟩ := Option.isSome_iff_exists.mp
          (sextetValue_isSome_of_alphabet hb2)
        simp [decodeQuads, ha, hbv]
      · simp [matchesBase64Regex, List.dropWhile_cons, hb1, hb2] at hre
    · simp [matchesBase64Regex, List.dropWhile_cons, hb1] at hre
  | case3 c1 c2 c4 rest h =>
    intro hlen hre
    exfalso
    simp only [Bool.and_eq_true, decide_eq_true_eq, List.isEmpty_iff,
      not_and] at h
    by_cases hb1 : isBase64Alphabet c1 = true
    · by_cases hb2 : isBase64Alphabet c2 = true
      · simp [matchesBase64Regex, List.dropWhile_cons, hb1, hb2,
          show isBase64Alphabet '=' = false from rfl] at hre
        exact h hre.1.1 hre.2
      · simp [matchesBase64Regex, List.dropWhile_cons, hb1, hb2,
          show isBase64Alphabet '=' = false from rfl] at hre
    · simp [matchesBase64Regex, List.dropWhile_cons, hb1,
        show isBase64Alphabet '=' = false from rfl] at hre
  | case4 c1 c2 c3 rest h1 h2 =>
    intro hlen hre
    simp only [List.isEmpty_iff] at h2
    subst h2
    by_cases hb1 : isBase64Alphabet c1 = true
    · by_cases hb2 : isBase64Alphabet c2 = true
      · by_cases hb3 : isBase64Alphabet c3 = true
        · obtain ⟨a, ha⟩ := Option.isSome_iff_exists.mp
            (sextetValue_isSome_of_alphabet hb1)
          obtain ⟨b, hbv⟩ := Option.isSome_iff_exists.mp
            (sextetValue_isSome_of_alphabet hb2)
          obtain ⟨c, hcv⟩ := Option.isSome_iff_exists.mp
            (sextetValue_isSome_of_alphabet hb3)
          simp [decodeQuads, h1, ha, hbv, hcv]
        · simp [matchesBase64Regex, List.dropWhile_cons, hb1, hb2, hb3, h1]
            at hre
      · simp [matchesBase64Regex, List.dropWhile_cons, hb1, hb2] at hre
    · simp [matchesBase64Regex, List.dropWhile_cons, hb1] at hre
  | case5 c1 c2 c3 rest h1 h2 =>
    intro hlen hre
    exfalso
    simp only [List.isEmpty_iff] at h2
    have hrest : rest ≠ [] := h2
    have hrl : 4 ≤ rest.length := by
      rcases rest with - | ⟨x, r⟩
      · exact absurd rfl hrest
      · simp only [List.length_cons] at hlen ⊢
        omega
    by_cases hb1 : isBase64Alphabet c1 = true
    · by_cases hb2 : isBase64Alphabet c2 = true
      · by_cases hb3 : isBase64Alphabet c3 = true
        · simp [matchesBase64Regex, List.dropWhile_cons, hb1, hb2, hb3,
            show isBase64Alphabet '=' = false from rfl] at hre
          omega
        · simp [matchesBase64Regex, List.dropWhile_cons, hb1, hb2, hb3,
            show isBase64Alphabet '=' = false from rfl] at hre
          exact h1 hre.1.1
      · simp [matchesBase64Regex, List.dropWhile_cons, hb1, hb2,
          show isBase64Alphabet '=' = false from rfl] at hre
    · simp [matchesBase64Regex, List.dropWhile_cons, hb1,
        show isBase64Alphabet '=' = false from rfl] at hre
  | case6 c1 c2 c3 c4 rest h1 h2 ih =>
    intro hlen hre
    have hb1 : isBase64Alphabet c1 = true := by
      by_contra hb
      simp [matchesBase64Regex, List.dropWhile_cons, hb] at hre
    have hb2 : isBase64Alphabet c2 = true := by
      by_contra hb
      simp [matchesBase64Regex, List.dropWhile_cons, hb1, hb] at hre
    have hb3 : isBase64Alphabet c3 = true := by
      by_contra hb
      simp [matchesBase64Regex, List.dropWhile_cons, hb1, hb2, hb] at hre
      exact h1 hre.1.1
    have hb4 : isBase64Alphabet c4 = true := by
      by_contra hb
      simp [matchesBase64Regex, List.dropWhile_cons, hb1, hb2, hb3, hb] at hre
      exact h2 hre.1.1
    have hre2 : matchesBase64Regex rest = true := by
      simpa [matchesBase64Regex, List.dropWhile_cons, hb1, hb2, hb3, hb4]
        using hre
    have hlen2 : rest.length % 4 = 0 := by
      simp only [List.length_cons] at hlen
      omega
    obtain ⟨a, ha⟩ := Option.isSome_iff_exists.mp
      (sextetValue_isSome_of_alphabet hb1)
    obtain ⟨b, hbv⟩ := Option.isSome_iff_exists.mp
      (sextetValue_isSome_of_alphabet hb2)
    obtain ⟨c, hcv⟩ := Option.isSome_iff_exists.mp
      (sextetValue_isSome_of_alphabet hb3)
    obtain ⟨d, hdv⟩ := Option.isSome_iff_exists.mp
      (sextetValue_isSome_of_alphabet hb4)
    obtain ⟨tail, htail⟩ := Option.isSome_iff_exists.mp (ih hlen2 hre2)
    simp [decodeQuads, h1, h2, ha, hbv, hcv, hdv, htail]
  | case7 t hnil hquad =>
    intro hlen hre
    exfalso
    rcases t with - | ⟨a, - | ⟨b, - | ⟨c, - | ⟨d, r⟩⟩⟩⟩
    · exact hnil rfl
    · simp at hlen
    · simp at hlen
    · simp at hlen
    · exact hquad a b c d r rfl

/-- `safeBase64Decode` fails, always with the invalid-base64 error, exactly
on the inputs whose whitespace-stripped form is empty, has length not
divisible by 4, contains a character outside `[A-Za-z0-9+/=]`, or has
incorrect padding. -/
theorem safeBase64Decode_eq_error_iff (s : List Char) :
    safeBase64Decode s = .error .invalidBase64 ↔
      stripWhitespace s = [] ∨ (stripWhitespace s).length % 4 ≠ 0 ∨
        containsInvalidBase64Char (stripWhitespace s) = true ∨
        incorrectPadding (stripWhitespace s) = true := by
  simp only [safeBase64Decode, normalizeBase64Input]
  by_cases hc : (stripWhitespace s).length = 0 ∨
      (stripWhitespace s).length % 4 ≠ 0 ∨ matchesBase64Regex (stripWhitespace s) = false
  · have hcb : ((stripWhitespace s).length = 0 ||
        (stripWhitespace s).length % 4 != 0 ||
        !matchesBase64Regex (stripWhitespace s)) = true := by
      simp only [Bool.or_eq_true, decide_eq_true_eq, bne_iff_ne, ne_eq,
        Bool.not_eq_true']
      tauto
    rw [if_pos hcb]
    simp only [true_iff]
    rcases hc with h0 | h4 | hr
    · exact Or.inl (List.length_eq_zero.mp h0)
    · exact Or.inr (Or.inl h4)
    · have := (matchesBase64Regex_iff (stripWhitespace s)).not
      simp only [hr, Bool.false_eq_true, not_false_eq_true, true_iff,
        not_and, Bool.not_eq_false] at this
      by_cases hA : containsInvalidBase64Char (stripWhitespace s) = true
      · exact Or.inr (Or.inr (Or.inl hA))
      · exact Or.inr (Or.inr (Or.inr (this (by simpa using hA))))
  · push_neg at hc
    obtain ⟨h0, h4, hr⟩ := hc
    have hre : matchesBase64Regex (stripWhitespace s) = true := by
      simpa using hr
    have hcb : ((stripWhitespace s).length = 0 ||
        (stripWhitespace s).length % 4 != 0 ||
        !matchesBase64Regex (stripWhitespace s)) = false := by
      simp [h0, h4, hre]
    rw [if_neg (by rw [hcb]; exact Bool.false_ne_true)]
    obtain ⟨bytes, hbytes⟩ := Option.isSome_iff_exists.mp
      (decodeQuads_isSome (stripWhitespace s) h4 hre)
    simp only [hbytes]
    have hAP := (matchesBase64Regex_iff (stripWhitespace s)).mp hre
    simp only [reduceCtorEq, false_iff, not_or]
    refine ⟨fun he => h0 (by simp [he]), fun h => h h4, ?_, ?_⟩
    · simp [hAP.1]
    · simp [hAP.2]

/-! ## JSON values

Modelled from the spec: the payment-header codec of §4.3 JSON-serializes a
`PaymentPayload` and JSON-parses it back (`JSON.stringify`/`JSON.parse` in
the TypeScript packages, whose header-codec sources are not part of this
tree).  The model below is a standard JSON value type with a compact
serializer and a recursive-descent parser; numbers are integers, which
covers every field the protocol writes. -/

inductive Json where
  | null
  | bool (b : Bool)
  | num (n : Int)
  | str (s : String)
  | arr (elems : List Json)
  | obj (fields : List (String × Json))
deriving Repr

def hexDigitChar (n : Nat) : Char :=
  ('0' :: '1' :: '2' :: '3' :: '4' :: '5' :: '6' :: '7' :: '8' :: '9' ::
   'a' :: 'b' :: 'c' :: ['d', 'e', 'f']).getD n '0'

/-- One character of JSON string content: `"` and `\` get a backslash
escape, control characters a `\u00XX` escape, everything else stands for
itself. -/
def escapeChar (c : Char) : List Char :=
  if c = '"' then ['\\', '"']
  else if c = '\\' then ['\\', '\\']
  else if c.toNat < 32 then
    ['\\', 'u', '0', '0', hexDigitChar (c.toNat / 16), hexDigitChar (c.toNat % 16)]
  else [c]

def stringifyString (s : String) : List Char :=
  '"' :: (s.data.flatMap escapeChar) ++ ['"']

def decDigitChar (n : Nat) : Char :=
  ['0', '1', '2', '3', '4', '5', '6', '7', '8', '9'].getD n '0'

def stringifyNat (n : Nat) : List Char :=
  if n < 10 then [decDigitChar n]
  else stringifyNat (n / 10) ++ [decDigitChar (n % 10)]
termination_by n
decreasing_by exact Nat.div_lt_self (by omega) (by omega)

def stringifyInt (i : Int) : List Char :=
  if i < 0 then '-' :: stringifyNat i.natAbs else stringifyNat i.toNat

mutual

def stringify : Json → List Char
  | .null => 'n' :: ['u', 'l', 'l']
  | .bool true => 't' :: ['r', 'u', 'e']
  | .bool false => 'f' :: ['a', 'l', 's', 'e']
  | .num n => stringifyInt n
  | .str s => stringifyString s
  | .arr es => '[' :: stringifyItems es ++ [']']
  | .obj fs => '{' :: stringifyFields fs ++ ['}']

def stringifyItems : List Json → List Char
  | [] => []
  | [x] => stringify x
  | x :: xs => stringify x ++ ',' :: stringifyItems xs

def stringifyFields : List (String × Json) → List Char
  | [] => []
  | [(k, v)] => stringifyString k ++ ':' :: stringify v
  | (k, v) :: fs => stringifyString k ++ ':' :: stringify v ++ ',' :: stringifyFields fs

end

/-! ### The parser -/

def isDecDigit (c : Char) : Bool := 48 ≤ c.toNat && c.toNat ≤ 57

def digitsToNat (ds : List Char) : Nat :=
  ds.foldl (fun a c => a * 10 + (c.toNat - 48)) 0

def parseNatDigits (s : List Char) : Option (Nat × List Char) :=
  let ds := s.takeWhile isDecDigit
  if ds.isEmpty then none else some (digitsToNat ds, s.dropWhile isDecDigit)

def parseNumberToken (s : List Char) : Option (Json × List Char) :=
  match s with
  | '-' :: rest => (parseNatDigits rest).map fun p => (.num (-(p.1 : Int)), p.2)
  | t => (parseNatDigits t).map fun p => (.num ((p.1 : Int)), p.2)

def hexVal (c : Char) : Option Nat :=
  if 48 ≤ c.toNat && c.toNat ≤ 57 then some (c.toNat - 48)
  else if 97 ≤ c.toNat && c.toNat ≤ 102 then some (c.toNat - 97 + 10)
  else if 65 ≤ c.toNat && c.toNat ≤ 70 then some (c.toNat - 65 + 10)
  else none

def escapeCode (e : Char) : Option Char :=
  if e = '"' then some '"'
  else if e = '\\' then some '\\'
  else if e = '/' then some '/'
  else if e = 'b' then some (Char.ofNat 8)
  else if e = 't' then some (Char.ofNat 9)
  else if e = 'n' then some (Char.ofNat 10)
  else if e = 'f' then some (Char.ofNat 12)
  else if e = 'r' then some (Char.ofNat 13)
  else none

/-- JSON string content after the opening quote: plain characters, simple
escapes and `\uXXXX`, up to the closing quote; raw control characters are
rejected. -/
def parseStringBody : List Char → Option (List Char × List Char)
  | [] => none
  | c :: rest =>
    if c = '"' then some ([], rest)
    else if c = '\\' then
      match rest with
      | 'u' :: h1 :: h2 :: h3 :: h4 :: rest2 =>
        (hexVal h1).bind fun v1 =>
          (hexVal h2).bind fun v2 =>
            (hexVal h3).bind fun v3 =>
              (hexVal h4).bind fun v4 =>
                (parseStringBody rest2).map fun p =>
                  (Char.ofNat (((v1 * 16 + v2) * 16 + v3) * 16 + v4) :: p.1, p.2)
      | e :: rest2 =>
        (escapeCode e).bind fun ch =>
          (parseStringBody rest2).map fun p => (ch :: p.1, p.2)
      | [] => none
    else if c.toNat < 32 then none
    else (parseStringBody rest).map fun p => (c :: p.1, p.2)

def isJsonWs (c : Char) : Bool :=
  c.toNat = 32 || c.toNat = 9 || c.toNat = 10 || c.toNat = 13

def skipWs (s : List Char) : List Char := s.dropWhile isJsonWs

mutual

def parseValue : Nat → List Char → Option (Json × List Char)
  | 0, _ => none
  | fuel + 1, s =>
    match skipWs s with
    | 'n' :: 'u' :: 'l' :: 'l' :: rest => some (.null, rest)
    | 't' :: 'r' :: 'u' :: 'e' :: rest => some (.bool true, rest)
    | 'f' :: 'a' :: 'l' :: 's' :: 'e' :: rest => some (.bool false, rest)
    | '"' :: rest => (parseStringBody rest).map fun p => (.str (String.mk p.1), p.2)
    | '[' :: rest =>
      (if (skipWs rest).head? = some ']' then some (.arr [], (skipWs rest).tail)
       else (parseItems fuel rest).map fun p => (.arr p.1, p.2))
    | '{' :: rest =>
      (if (skipWs rest).head? = some '}' then some (.obj [], (skipWs rest).tail)
       else (parseFields fuel rest).map fun p => (.obj p.1, p.2))
    | t => parseNumberToken t

def parseItems : Nat → List Char → Option (List Json × List Char)
  | 0, _ => none
  | fuel + 1, s =>
    (parseValue fuel s).bind fun p =>
      match skipWs p.2 with
      | ',' :: r2 =>
        (parseItems fuel r2).map fun q => (p.1 :: q.1, q.2)
      | ']' :: r2 => some ([p.1], r2)
      | _ => none

def parseFields : Nat → List Char → Option (List (String × Json) × List Char)
  | 0, _ => none
  | fuel + 1, s =>
    match skipWs s with
    | '"' :: r =>
      (parseStringBody r).bind fun kp =>
        match skipWs kp.2 with
        | ':' :: r2 =>
          (parseValue fuel r2).bind fun vp =>
            (match skipWs vp.2 with
             | ',' :: r4 =>
               (parseFields fuel r4).map fun q =>
                 ((String.mk kp.1, vp.1) :: q.1, q.2)
             | '}' :: r4 => some ([(String.mk kp.1, vp.1)], r4)
             | _ => none)
        | _ => none
    | _ => none

end

/-- `JSON.parse`: parse one value, then require only whitespace to remain. -/
def jsonParse (s : List Char) : Option Json :=
  match parseValue (s.length + 1) s with
  | some (v, rest) => if (skipWs rest).isEmpty then some v else none
  | none => none

/-- `safeBase64DecodeJson`: strict base64 decode, then JSON-parse, with the
parse failure reported as the distinct invalid-JSON error. -/
def safeBase64DecodeJson (s : List Char) : Except Base64Error Json :=
  match safeBase64Decode s with
  | .error e => .error e
  | .ok t =>
    match jsonParse t with
    | some v => .ok v
    | none => .error .invalidJson

/-! ### Parsing inverts printing -/

theorem hexVal_hexDigitChar_fin :
    ∀ i : Fin 16, hexVal (hexDigitChar i.val) = some i.val := by decide

theorem psb_quote (rest : List Char) :
    parseStringBody ('"' :: rest) = some ([], rest) := by
  rw [parseStringBody.eq_def]; simp

theorem psb_backslash_quote (rest : List Char) :
    parseStringBody ('\\' :: '"' :: rest) =
      (parseStringBody rest).map fun p => ('"' :: p.1, p.2) := by
  rw [parseStringBody.eq_def]; simp [escapeCode]

theorem psb_backslash_backslash (rest : List Char) :
    parseStringBody ('\\' :: '\\' :: rest) =
      (parseStringBody rest).map fun p => ('\\' :: p.1, p.2) := by
  rw [parseStringBody.eq_def]; simp [escapeCode]

theorem psb_unicode (h1 h2 h3 h4 : Char) (rest : List Char) :
    parseStringBody ('\\' :: 'u' :: h1 :: h2 :: h3 :: h4 :: rest) =
      ((hexVal h1).bind fun v1 =>
        (hexVal h2).bind fun v2 =>
          (hexVal h3).bind fun v3 =>
            (hexVal h4).bind fun v4 =>
              (parseStringBody rest).map fun p =>
                (Char.ofNat (((v1 * 16 + v2) * 16 + v3) * 16 + v4) :: p.1, p.2)) := by
  rw [parseStringBody.eq_def]; simp

theorem psb_plain (c : Char) (rest : List Char) (hq : ¬c = '"')
    (hbs : ¬c = '\\') (hctl : ¬c.toNat < 32) :
    parseStringBody (c :: rest) =
      (parseStringBody rest).map fun p => (c :: p.1, p.2) := by
  rw [parseStringBody.eq_def]; simp [hq, hbs, hctl]

theorem parseStringBody_escape (s : List Char) (rest : List Char) :
    parseStringBody (s.flatMap escapeChar ++ '"' :: rest) = some (s, rest) := by
  induction s with
  | nil => simpa using psb_quote rest
  | cons c t ih =>
    rw [List.flatMap_cons, List.append_assoc]
    by_cases hq : c = '"'
    · subst hq
      rw [show escapeChar '"' = ['\\', '"'] from rfl]
      simp only [List.cons_append, List.nil_append]
      rw [psb_backslash_quote, ih]
      rfl
    · by_cases hbs : c = '\\'
      · subst hbs
        rw [show escapeChar '\\' = ['\\', '\\'] from rfl]
        simp only [List.cons_append, List.nil_append]
        rw [psb_backslash_backslash, ih]
        rfl
      · by_cases hctl : c.toNat < 32
        · rw [show escapeChar c =
            ['\\', 'u', '0', '0', hexDigitChar (c.toNat / 16),
              hexDigitChar (c.toNat % 16)] from by
            simp [escapeChar, hq, hbs, hctl]]
          simp only [List.cons_append, List.nil_append]
          rw [psb_unicode]
          have h1 : hexVal (hexDigitChar (c.toNat / 16)) = some (c.toNat / 16) :=
            hexVal_hexDigitChar_fin ⟨c.toNat / 16, by omega⟩
          have h2 : hexVal (hexDigitChar (c.toNat % 16)) = some (c.toNat % 16) :=
            hexVal_hexDigitChar_fin ⟨c.toNat % 16, by omega⟩
          rw [show hexVal '0' = some 0 from rfl, h1, h2]
          simp only [Option.some_bind]
          rw [ih]
          simp only [Option.map_some']
          rw [show ((0 * 16 + 0) * 16 + c.toNat / 16) * 16 + c.toNat % 16
            = c.toNat from by omega, Char.ofNat_toNat]
        · rw [show escapeChar c = [c] from by simp [escapeChar, hq, hbs, hctl]]
          simp only [List.cons_append, List.nil_append]
          rw [psb_plain c _ hq hbs hctl, ih]
          rfl

theorem decDigitChar_fin :
    ∀ i : Fin 10, isDecDigit (decDigitChar i.val) = true ∧
      (decDigitChar i.val).toNat - 48 = i.val := by decide

theorem stringifyNat_all_digits (n : Nat) :
    ∀ c ∈ stringifyNat n, isDecDigit c = true := by
  induction n using stringifyNat.induct with
  | case1 n h =>
    intro c hc
    rw [stringifyNat, if_pos h] at hc
    simp only [List.mem_singleton] at hc
    subst hc
    exact (decDigitChar_fin ⟨n, h⟩).1
  | case2 n h ih =>
    intro c hc
    rw [stringifyNat, if_neg h] at hc
    rcases List.mem_append.mp hc with h1 | h1
    · exact ih c h1
    · simp only [List.mem_singleton] at h1
      subst h1
      exact (decDigitChar_fin ⟨n % 10, by omega⟩).1

theorem stringifyNat_head_digit (n : Nat) :
    ∃ d ds, stringifyNat n = d :: ds ∧ isDecDigit d = true := by
  induction n using stringifyNat.induct with
  | case1 n h =>
    exact ⟨decDigitChar n, [], by rw [stringifyNat, if_pos h],
      (decDigitChar_fin ⟨n, h⟩).1⟩
  | case2 n h ih =>
    obtain ⟨d, ds, hds, hd⟩ := ih
    exact ⟨d, ds ++ [decDigitChar (n % 10)],
      by rw [stringifyNat, if_neg h, hds]; simp, hd⟩

theorem digitsToNat_append (ds : List Char) (d : Char) :
    digitsToNat (ds ++ [d]) = digitsToNat ds * 10 + (d.toNat - 48) := by
  simp [digitsToNat, List.foldl_append]

theorem digitsToNat_stringifyNat (n : Nat) :
    digitsToNat (stringifyNat n) = n := by
  induction n using stringifyNat.induct with
  | case1 n h =>
    rw [stringifyNat, if_pos h]
    have hv : (decDigitChar n).toNat - 48 = n := (decDigitChar_fin ⟨n, h⟩).2
    have hge : 48 ≤ (decDigitChar n).toNat := by
      have := (decDigitChar_fin ⟨n, h⟩).1
      simp only [isDecDigit, Bool.and_eq_true, decide_eq_true_eq] at this
      exact this.1
    simp only [digitsToNat, List.foldl_cons, List.foldl_nil]
    omega
  | case2 n h ih =>
    rw [stringifyNat, if_neg h, digitsToNat_append, ih]
    have hv : (decDigitChar (n % 10)).toNat - 48 = n % 10 :=
      (decDigitChar_fin ⟨n % 10, by omega⟩).2
    have hge : 48 ≤ (decDigitChar (n % 10)).toNat := by
      have := (decDigitChar_fin ⟨n % 10, by omega⟩).1
      simp only [isDecDigit, Bool.and_eq_true, decide_eq_true_eq] at this
      exact this.1
    omega

theorem takeWhile_append_of_all {α : Type} (p : α → Bool) (ds rest : List α)
    (hall : ∀ c ∈ ds, p c = true)
    (hrest : ∀ c, rest.head? = some c → p c = false) :
    (ds ++ rest).takeWhile p = ds ∧ (ds ++ rest).dropWhile p = rest := by
  induction ds with
  | nil =>
    rcases rest with - | ⟨c, t⟩
    · simp
    · have := hrest c rfl
      simp [List.takeWhile_cons, List.dropWhile_cons, this]
  | cons d ds ih =>
    have hd : p d = true := hall d (by simp)
    have := ih fun c hc => hall c (by simp [hc])
    simp [List.takeWhile_cons, List.dropWhile_cons, hd, this]

theorem parseNatDigits_stringifyNat (n : Nat) (rest : List Char)
    (hrest : ∀ c, rest.head? = some c → isDecDigit c = false) :
    parseNatDigits (stringifyNat n ++ rest) = some (n, rest) := by
  obtain ⟨htake, hdrop⟩ :=
    takeWhile_append_of_all isDecDigit (stringifyNat n) rest
      (stringifyNat_all_digits n) hrest
  obtain ⟨d, ds, hds, -⟩ := stringifyNat_head_digit n
  unfold parseNatDigits
  rw [htake, hdrop]
  rw [if_neg (by simp [hds])]
  rw [digitsToNat_stringifyNat]

theorem parseNumberToken_stringifyInt (i : Int) (rest : List Char)
    (hrest : ∀ c, rest.head? = some c → isDecDigit c = false) :
    parseNumberToken (stringifyInt i ++ rest) = some (.num i, rest) := by
  by_cases hneg : i < 0
  · rw [stringifyInt, if_pos hneg]
    simp only [List.cons_append]
    rw [parseNumberToken]
    rw [parseNatDigits_stringifyNat _ _ hrest]
    simp only [Option.map_some']
    have hi : -((i.natAbs : Nat) : Int) = i := by omega
    rw [hi]
  · rw [stringifyInt, if_neg hneg]
    obtain ⟨d, ds, hds, hd⟩ := stringifyNat_head_digit i.toNat
    rw [parseNumberToken.eq_def]
    split
    · rename_i rest2 heq
      rw [hds] at heq
      simp only [List.cons_append, List.cons.injEq] at heq
      rw [heq.1] at hd
      simp [isDecDigit] at hd
    · rw [parseNatDigits_stringifyNat _ _ hrest]
      simp only [Option.map_some']
      have hi : ((i.toNat : Nat) : Int) = i := by omega
      rw [hi]

/-! ### A size measure bounding the fuel the parser needs -/

mutual

def jsonSize : Json → Nat
  | .null => 1
  | .bool _ => 1
  | .num _ => 1
  | .str _ => 1
  | .arr es => 1 + itemsSize es
  | .obj fs => 1 + fieldsSize fs

def itemsSize : List Json → Nat
  | [] => 0
  | x :: xs => 1 + jsonSize x + itemsSize xs

def fieldsSize : List (String × Json) → Nat
  | [] => 0
  | f :: fs => 1 + jsonSize f.2 + fieldsSize fs

end

theorem jsonSize_pos (j : Json) : 1 ≤ jsonSize j := by
  cases j <;> simp [jsonSize]

theorem itemsSize_pos {es : List Json} (h : es ≠ []) : 1 ≤ itemsSize es := by
  cases es with
  | nil => exact absurd rfl h
  | cons x xs => simp [itemsSize]; omega

theorem fieldsSize_pos {fs : List (String × Json)} (h : fs ≠ []) :
    1 ≤ fieldsSize fs := by
  cases fs with
  | nil => exact absurd rfl h
  | cons f fs => simp [fieldsSize]; omega

/-! ### The first character a printed value can start with -/

theorem digit_not_special {c : Char} (h : isDecDigit c = true) :
    isJsonWs c = false ∧ c ≠ ']' ∧ c ≠ '}' := by
  simp only [isDecDigit, Bool.and_eq_true, decide_eq_true_eq] at h
  refine ⟨?_, ?_, ?_⟩
  · simp only [isJsonWs, Bool.or_eq_false_iff, decide_eq_false_iff_not]
    omega
  · intro hc; subst hc; simp at h
  · intro hc; subst hc; simp at h

theorem stringifyInt_head (i : Int) :
    ∃ d ds, stringifyInt i = d :: ds ∧ (d = '-' ∨ isDecDigit d = true) := by
  by_cases hneg : i < 0
  · exact ⟨'-', stringifyNat i.natAbs, by rw [stringifyInt, if_pos hneg],
      Or.inl rfl⟩
  · obtain ⟨d, ds, hds, hd⟩ := stringifyNat_head_digit i.toNat
    exact ⟨d, ds, by rw [stringifyInt, if_neg hneg, hds], Or.inr hd⟩

theorem stringify_head_class (j : Json) :
    ∃ c cs, stringify j = c :: cs ∧ isJsonWs c = false ∧ c ≠ ']' ∧ c ≠ '}' := by
  cases j with
  | null => refine ⟨'n', _, rfl, ?_, ?_, ?_⟩ <;> decide
  | bool b =>
    cases b with
    | false => refine ⟨'f', _, rfl, ?_, ?_, ?_⟩ <;> decide
    | true => refine ⟨'t', _, rfl, ?_, ?_, ?_⟩ <;> decide
  | num n =>
    obtain ⟨d, ds, hds, hd⟩ := stringifyInt_head n
    refine ⟨d, ds, by rw [stringify, hds], ?_⟩
    rcases hd with rfl | hd
    · exact ⟨by decide, by decide, by decide⟩
    · exact digit_not_special hd
  | str s => refine ⟨'"', _, rfl, ?_, ?_, ?_⟩ <;> decide
  | arr es => refine ⟨'[', _, rfl, ?_, ?_, ?_⟩ <;> decide
  | obj fs => refine ⟨'{', _, rfl, ?_, ?_, ?_⟩ <;> decide

theorem skipWs_stringify (j : Json) (rest : List Char) :
    skipWs (stringify j ++ rest) = stringify j ++ rest := by
  obtain ⟨c, cs, hds, hw, -, -⟩ := stringify_head_class j
  rw [hds]
  simp [skipWs, List.dropWhile_cons, hw]

/-- The remainder does not begin with a digit, so a printed number before it
keeps its own digits. -/
def numSafe (rest : List Char) : Prop :=
  ∀ c, rest.head? = some c → isDecDigit c = false

/-! ### One-step reduction lemmas for `parseValue` -/

theorem pv_null (g : Nat) (rest : List Char) :
    parseValue (g + 1) ('n' :: 'u' :: 'l' :: 'l' :: rest) = some (.null, rest) := by
  rw [parseValue.eq_def]
  simp [skipWs, List.dropWhile_cons, isJsonWs]

theorem pv_true (g : Nat) (rest : List Char) :
    parseValue (g + 1) ('t' :: 'r' :: 'u' :: 'e' :: rest) = some (.bool true, rest) := by
  rw [parseValue.eq_def]
  simp [skipWs, List.dropWhile_cons, isJsonWs]

theorem pv_false (g : Nat) (rest : List Char) :
    parseValue (g + 1) ('f' :: 'a' :: 'l' :: 's' :: 'e' :: rest) = some (.bool false, rest) := by
  rw [parseValue.eq_def]
  simp [skipWs, List.dropWhile_cons, isJsonWs]

theorem pv_str (g : Nat) (rest : List Char) :
    parseValue (g + 1) ('"' :: rest) =
      (parseStringBody rest).map fun p => (Json.str (String.mk p.1), p.2) := by
  rw [parseValue.eq_def]
  simp [skipWs, List.dropWhile_cons, isJsonWs]

theorem pv_arr (g : Nat) (rest : List Char) :
    parseValue (g + 1) ('[' :: rest) =
      (if (skipWs rest).head? = some ']' then some (.arr [], (skipWs rest).tail)
       else (parseItems g rest).map fun p => (.arr p.1, p.2)) := by
  rw [parseValue.eq_def]
  simp [skipWs, List.dropWhile_cons, isJsonWs]

theorem pv_obj (g : Nat) (rest : List Char) :
    parseValue (g + 1) ('{' :: rest) =
      (if (skipWs rest).head? = some '}' then some (.obj [], (skipWs rest).tail)
       else (parseFields g rest).map fun p => (.obj p.1, p.2)) := by
  rw [parseValue.eq_def]
  simp [skipWs, List.dropWhile_cons, isJsonWs]

theorem pv_fallthrough (g : Nat) (d : Char) (t : List Char)
    (hw : isJsonWs d = false)
    (hd : d ≠ 'n' ∧ d ≠ 't' ∧ d ≠ 'f' ∧ d ≠ '"' ∧ d ≠ '[' ∧ d ≠ '{') :
    parseValue (g + 1) (d :: t) = parseNumberToken (d :: t) := by
  obtain ⟨h1, h2, h3, h4, h5, h6⟩ := hd
  rw [parseValue.eq_def]
  dsimp only
  rw [show skipWs (d :: t) = d :: t by simp [skipWs, List.dropWhile_cons, hw]]
  split <;> simp_all

theorem parse_stringify_complete : ∀ fuel : Nat,
    (∀ (j : Json) (rest : List Char), jsonSize j ≤ fuel → numSafe rest →
      parseValue fuel (stringify j ++ rest) = some (j, rest)) ∧
    (∀ (es : List Json) (rest : List Char), es ≠ [] → itemsSize es ≤ fuel →
      parseItems fuel (stringifyItems es ++ ']' :: rest) = some (es, rest)) ∧
    (∀ (fs : List (String × Json)) (rest : List Char), fs ≠ [] →
      fieldsSize fs ≤ fuel →
      parseFields fuel (stringifyFields fs ++ '}' :: rest) = some (fs, rest)) := by
  intro fuel
  induction fuel using Nat.strong_induction_on with
  | _ fuel ih =>
  rcases fuel with - | g
  · refine ⟨?_, ?_, ?_⟩
    · intro j rest hsz _
      exact absurd hsz (by have := jsonSize_pos j; omega)
    · intro es rest hne hsz
      exact absurd hsz (by have := itemsSize_pos hne; omega)
    · intro fs rest hne hsz
      exact absurd hsz (by have := fieldsSize_pos hne; omega)
  · obtain ⟨ihv, ihi, ihf⟩ := ih g (by omega)
    refine ⟨?_, ?_, ?_⟩
    · intro j rest hsz hns
      cases j with
      | null => exact pv_null g rest
      | bool b =>
        cases b
        · exact pv_false g rest
        · exact pv_true g rest
      | num n =>
        obtain ⟨d, ds, hds, hd⟩ := stringifyInt_head n
        have hw : isJsonWs d = false := by
          rcases hd with rfl | hd
          · decide
          · exact (digit_not_special hd).1
        have hne : d ≠ 'n' ∧ d ≠ 't' ∧ d ≠ 'f' ∧ d ≠ '"' ∧ d ≠ '[' ∧ d ≠ '{' := by
          rcases hd with rfl | hd
          · exact ⟨by decide, by decide, by decide, by decide, by decide, by decide⟩
          · simp only [isDecDigit, Bool.and_eq_true, decide_eq_true_eq] at hd
            refine ⟨?_, ?_, ?_, ?_, ?_, ?_⟩ <;>
              (intro hc; subst hc; revert hd; decide)
        have hshape : stringify (.num n) ++ rest = d :: (ds ++ rest) := by
          show stringifyInt n ++ rest = d :: (ds ++ rest)
          rw [hds]; simp
        rw [hshape, pv_fallthrough g d (ds ++ rest) hw hne, ← hshape]
        show parseNumberToken (stringifyInt n ++ rest) = some (.num n, rest)
        exact parseNumberToken_stringifyInt n rest hns
      | str s =>
        have hshape : stringify (.str s) ++ rest
            = '"' :: (s.data.flatMap escapeChar ++ '"' :: rest) := by
          show ('"' :: (s.data.flatMap escapeChar ++ ['"'])) ++ rest = _
          simp
        rw [hshape, pv_str, parseStringBody_escape]
        rfl
      | arr es =>
        cases es with
        | nil =>
          have hshape : stringify (.arr []) ++ rest = '[' :: ']' :: rest := rfl
          rw [hshape, pv_arr]
          rw [show skipWs (']' :: rest) = ']' :: rest by
            simp [skipWs, List.dropWhile_cons, isJsonWs]]
          rfl
        | cons x xs =>
          obtain ⟨t, ht⟩ : ∃ t, stringifyItems (x :: xs) = stringify x ++ t := by
            cases xs with
            | nil => exact ⟨[], by simp [stringifyItems]⟩
            | cons y ys => exact ⟨',' :: stringifyItems (y :: ys), rfl⟩
          obtain ⟨c, cs, hcs, hw, hbr, -⟩ := stringify_head_class x
          have hshape : stringify (.arr (x :: xs)) ++ rest
              = '[' :: (stringifyItems (x :: xs) ++ ']' :: rest) := by
            show ('[' :: (stringifyItems (x :: xs) ++ [']'])) ++ rest = _
            simp
          rw [hshape, pv_arr]
          have hbody : stringifyItems (x :: xs) ++ ']' :: rest
              = c :: (cs ++ t ++ ']' :: rest) := by
            rw [ht, hcs]; simp
          rw [if_neg (by
            rw [hbody]
            rw [show skipWs (c :: (cs ++ t ++ ']' :: rest))
                = c :: (cs ++ t ++ ']' :: rest) by
              simp [skipWs, List.dropWhile_cons, hw]]
            simp [hbr])]
          rw [ihi (x :: xs) rest (by simp) (by
            simp only [jsonSize] at hsz
            omega)]
          rfl
      | obj fs =>
        cases fs with
        | nil =>
          have hshape : stringify (.obj []) ++ rest = '{' :: '}' :: rest := rfl
          rw [hshape, pv_obj]
          rw [show skipWs ('}' :: rest) = '}' :: rest by
            simp [skipWs, List.dropWhile_cons, isJsonWs]]
          rfl
        | cons f fs =>
          have hshape : stringify (.obj (f :: fs)) ++ rest
              = '{' :: (stringifyFields (f :: fs) ++ '}' :: rest) := by
            show ('{' :: (stringifyFields (f :: fs) ++ ['}'])) ++ rest = _
            simp
          rw [hshape, pv_obj]
          obtain ⟨t, ht⟩ : ∃ t, stringifyFields (f :: fs)
              = stringifyString f.1 ++ t := by
            cases fs with
            | nil => exact ⟨':' :: stringify f.2, by simp [stringifyFields]⟩
            | cons f2 fs2 =>
              exact ⟨':' :: stringify f.2 ++ ',' :: stringifyFields (f2 :: fs2),
                by simp [stringifyFields]⟩
          have hbody : stringifyFields (f :: fs) ++ '}' :: rest
              = '"' :: (f.1.data.flatMap escapeChar ++ ['"'] ++ t ++ '}' :: rest) := by
            rw [ht]
            show (('"' :: (f.1.data.flatMap escapeChar ++ ['"'])) ++ t) ++ '}' :: rest = _
            simp
          rw [if_neg (by
            rw [hbody]
            rw [show skipWs ('"' :: (f.1.data.flatMap escapeChar ++ ['"'] ++ t ++ '}' :: rest))
                = '"' :: (f.1.data.flatMap escapeChar ++ ['"'] ++ t ++ '}' :: rest) by
              simp [skipWs, List.dropWhile_cons, isJsonWs]]
            simp)]
          rw [ihf (f :: fs) rest (by simp) (by
            simp only [jsonSize] at hsz
            omega)]
          rfl
    · intro es rest hne hsz
      cases es with
      | nil => exact absurd rfl hne
      | cons x xs =>
        rw [parseItems.eq_def]
        dsimp only
        cases xs with
        | nil =>
          have hshape : stringifyItems [x] ++ ']' :: rest
              = stringify x ++ ']' :: rest := by
            simp [stringifyItems]
          rw [hshape]
          rw [ihv x (']' :: rest) (by simp only [itemsSize] at hsz; omega)
            (by intro c hc; simp at hc; subst hc; decide)]
          simp only [Option.some_bind]
          rw [show skipWs (']' :: rest) = ']' :: rest by
            simp [skipWs, List.dropWhile_cons, isJsonWs]]
          rfl
        | cons y ys =>
          have hshape : stringifyItems (x :: y :: ys) ++ ']' :: rest
              = stringify x ++ ',' :: (stringifyItems (y :: ys) ++ ']' :: rest) := by
            show (stringify x ++ ',' :: stringifyItems (y :: ys)) ++ ']' :: rest = _
            simp
          rw [hshape]
          rw [ihv x (',' :: (stringifyItems (y :: ys) ++ ']' :: rest))
            (by simp only [itemsSize] at hsz; omega)
            (by intro c hc; simp at hc; subst hc; decide)]
          simp only [Option.some_bind]
          rw [show skipWs (',' :: (stringifyItems (y :: ys) ++ ']' :: rest))
              = ',' :: (stringifyItems (y :: ys) ++ ']' :: rest) by
            simp [skipWs, List.dropWhile_cons, isJsonWs]]
          simp only []
          rw [ihi (y :: ys) rest (by simp)
            (by simp only [itemsSize] at hsz ⊢; omega)]
          rfl
    · intro fs rest hne hsz
      cases fs with
      | nil => exact absurd rfl hne
      | cons f fs =>
        rw [parseFields.eq_def]
        dsimp only
        obtain ⟨k, v⟩ := f
        cases fs with
        | nil =>
          have hshape : stringifyFields [(k, v)] ++ '}' :: rest
              = '"' :: (k.data.flatMap escapeChar ++ '"' ::
                  (':' :: (stringify v ++ '}' :: rest))) := by
            show ((('"' :: (k.data.flatMap escapeChar ++ ['"']))) ++
              ':' :: stringify v) ++ '}' :: rest = _
            simp
          rw [hshape]
          rw [show skipWs ('"' :: (k.data.flatMap escapeChar ++ '"' ::
              (':' :: (stringify v ++ '}' :: rest))))
              = '"' :: (k.data.flatMap escapeChar ++ '"' ::
                  (':' :: (stringify v ++ '}' :: rest))) by
            simp [skipWs, List.dropWhile_cons, isJsonWs]]
          simp only []
          rw [parseStringBody_escape]
          simp only [Option.some_bind]
          rw [show skipWs (':' :: (stringify v ++ '}' :: rest))
              = ':' :: (stringify v ++ '}' :: rest) by
            simp [skipWs, List.dropWhile_cons, isJsonWs]]
          simp only []
          rw [ihv v ('}' :: rest) (by simp only [fieldsSize] at hsz; omega)
            (by intro c hc; simp at hc; subst hc; decide)]
          simp only [Option.some_bind]
          rw [show skipWs ('}' :: rest) = '}' :: rest by
            simp [skipWs, List.dropWhile_cons, isJsonWs]]
          rfl
        | cons f2 fs2 =>
          have hshape : stringifyFields ((k, v) :: f2 :: fs2) ++ '}' :: rest
              = '"' :: (k.data.flatMap escapeChar ++ '"' ::
                  (':' :: (stringify v ++ ',' ::
                    (stringifyFields (f2 :: fs2) ++ '}' :: rest)))) := by
            show ((('"' :: (k.data.flatMap escapeChar ++ ['"']))) ++
              ':' :: stringify v ++ ',' :: stringifyFields (f2 :: fs2)) ++
                '}' :: rest = _
            simp
          rw [hshape]
          rw [show skipWs ('"' :: (k.data.flatMap escapeChar ++ '"' ::
              (':' :: (stringify v ++ ',' ::
                (stringifyFields (f2 :: fs2) ++ '}' :: rest)))))
              = '"' :: (k.data.flatMap escapeChar ++ '"' ::
                  (':' :: (stringify v ++ ',' ::
                    (stringifyFields (f2 :: fs2) ++ '}' :: rest)))) by
            simp [skipWs, List.dropWhile_cons, isJsonWs]]
          simp only []
          rw [parseStringBody_escape]
          simp only [Option.some_bind]
          rw [show skipWs (':' :: (stringify v ++ ',' ::
              (stringifyFields (f2 :: fs2) ++ '}' :: rest)))
              = ':' :: (stringify v ++ ',' ::
                (stringifyFields (f2 :: fs2) ++ '}' :: rest)) by
            simp [skipWs, List.dropWhile_cons, isJsonWs]]
          simp only []
          rw [ihv v (',' :: (stringifyFields (f2 :: fs2) ++ '}' :: rest))
            (by simp only [fieldsSize] at hsz; omega)
            (by intro c hc; simp at hc; subst hc; decide)]
          simp only [Option.some_bind]
          rw [show skipWs (',' :: (stringifyFields (f2 :: fs2) ++ '}' :: rest))
              = ',' :: (stringifyFields (f2 :: fs2) ++ '}' :: rest) by
            simp [skipWs, List.dropWhile_cons, isJsonWs]]
          simp only []
          rw [ihf (f2 :: fs2) rest (by simp)
            (by simp only [fieldsSize] at hsz ⊢; omega)]
          rfl

theorem sizes_le_length : ∀ n : Nat,
    (∀ j : Json, jsonSize j ≤ n → jsonSize j ≤ (stringify j).length) ∧
    (∀ es : List Json, itemsSize es ≤ n →
      itemsSize es ≤ (stringifyItems es).length + 1) ∧
    (∀ fs : List (String × Json), fieldsSize fs ≤ n →
      fieldsSize fs ≤ (stringifyFields fs).length + 1) := by
  intro n
  induction n using Nat.strong_induction_on with
  | _ n ih =>
  refine ⟨?_, ?_, ?_⟩
  · intro j hn
    cases j with
    | null => simp [jsonSize, stringify]
    | bool b => cases b <;> simp [jsonSize, stringify]
    | num m =>
      obtain ⟨d, ds, hds, -⟩ := stringifyInt_head m
      show jsonSize (.num m) ≤ (stringifyInt m).length
      rw [hds]
      simp [jsonSize]
    | str s => simp [jsonSize, stringify, stringifyString]
    | arr es =>
      have hpos := jsonSize_pos (.arr es)
      have hsub : itemsSize es ≤ n - 1 := by
        simp only [jsonSize] at hn
        omega
      have h2 := (ih (n - 1) (by omega)).2.1 es hsub
      show 1 + itemsSize es ≤ ('[' :: (stringifyItems es ++ [']'])).length
      simp only [List.length_cons, List.length_append, List.length_singleton]
      omega
    | obj fs =>
      have hpos := jsonSize_pos (.obj fs)
      have hsub : fieldsSize fs ≤ n - 1 := by
        simp only [jsonSize] at hn
        omega
      have h2 := (ih (n - 1) (by omega)).2.2 fs hsub
      show 1 + fieldsSize fs ≤ ('{' :: (stringifyFields fs ++ ['}'])).length
      simp only [List.length_cons, List.length_append, List.length_singleton]
      omega
  · intro es hn
    cases es with
    | nil => simp [itemsSize, stringifyItems]
    | cons x xs =>
      have hx : jsonSize x ≤ n - 1 := by
        simp only [itemsSize] at hn
        have := jsonSize_pos x
        omega
      have h1 := (ih (n - 1) (by
        simp only [itemsSize] at hn
        have := jsonSize_pos x
        omega)).1 x hx
      cases xs with
      | nil =>
        show itemsSize [x] ≤ (stringifyItems [x]).length + 1
        simp only [itemsSize, stringifyItems]
        omega
      | cons y ys =>
        have hxs : itemsSize (y :: ys) ≤ n - 1 := by
          simp only [itemsSize] at hn ⊢
          have := jsonSize_pos x
          omega
        have h2 := (ih (n - 1) (by
          simp only [itemsSize] at hn
          have := jsonSize_pos x
          omega)).2.1 (y :: ys) hxs
        show itemsSize (x :: y :: ys) ≤ (stringifyItems (x :: y :: ys)).length + 1
        have hlen : (stringifyItems (x :: y :: ys)).length
            = (stringify x).length + 1 + (stringifyItems (y :: ys)).length := by
          show (stringify x ++ ',' :: stringifyItems (y :: ys)).length = _
          simp
          omega
        simp only [itemsSize] at hn h2 ⊢
        omega
  · intro fs hn
    cases fs with
    | nil => simp [fieldsSize, stringifyFields]
    | cons f fs =>
      obtain ⟨k, v⟩ := f
      have hv : jsonSize v ≤ n - 1 := by
        simp only [fieldsSize] at hn
        have := jsonSize_pos v
        omega
      have h1 := (ih (n - 1) (by
        simp only [fieldsSize] at hn
        have := jsonSize_pos v
        omega)).1 v hv
      cases fs with
      | nil =>
        show fieldsSize [(k, v)] ≤ (stringifyFields [(k, v)]).length + 1
        have hlen : (stringifyFields [(k, v)]).length
            = (stringifyString k).length + 1 + (stringify v).length := by
          show (stringifyString k ++ ':' :: stringify v).length = _
          simp
          omega
        simp only [fieldsSize] at hn ⊢
        simp only [hlen]
        omega
      | cons f2 fs2 =>
        have hxs : fieldsSize (f2 :: fs2) ≤ n - 1 := by
          simp only [fieldsSize] at hn ⊢
          have := jsonSize_pos v
          omega
        have h2 := (ih (n - 1) (by
          simp only [fieldsSize] at hn
          have := jsonSize_pos v
          omega)).2.2 (f2 :: fs2) hxs
        show fieldsSize ((k, v) :: f2 :: fs2)
            ≤ (stringifyFields ((k, v) :: f2 :: fs2)).length + 1
        have hlen : (stringifyFields ((k, v) :: f2 :: fs2)).length
            = (stringifyString k).length + 1 + (stringify v).length + 1
              + (stringifyFields (f2 :: fs2)).length := by
          show (stringifyString k ++ ':' :: stringify v ++ ','
            :: stringifyFields (f2 :: fs2)).length = _
          simp
          omega
        simp only [fieldsSize] at hn h2 ⊢
        simp only [hlen]
        omega

/-- `JSON.parse` undoes the serializer: round trip at the JSON level. -/
theorem jsonParse_stringify (j : Json) : jsonParse (stringify j) = some j := by
  have hsz : jsonSize j ≤ (stringify j).length :=
    (sizes_le_length (jsonSize j)).1 j le_rfl
  have hmain := (parse_stringify_complete ((stringify j).length + 1)).1 j []
    (by omega) (by intro c hc; simp at hc)
  rw [List.append_nil] at hmain
  unfold jsonParse
  rw [hmain]
  simp [skipWs]

/-! ## Payment payload and the payment-header codec (§4.3)

Modelled from the spec: the Header Codec wraps a payload as
`PaymentPayload{x402Version, scheme, network, payload}`, JSON-serializes it
and base64-encodes it; decoding base64-decodes, JSON-parses, and validates
that `x402Version` is numeric, `scheme` and `network` are non-empty strings
and `payload` is an object, failing with a malformed-header error naming
the first bad field. -/

structure PaymentPayload where
  x402Version : Int
  scheme : String
  network : String
  payload : Json
deriving Repr

def paymentPayloadToJson (p : PaymentPayload) : Json :=
  .obj [("x402Version", .num p.x402Version), ("scheme", .str p.scheme),
        ("network", .str p.network), ("payload", p.payload)]

/-- JavaScript property lookup on a parsed object (first binding wins; the
serializer never emits duplicate keys). -/
def jsonLookup (fields : List (String × Json)) (k : String) : Option Json :=
  (fields.find? fun f => f.1 == k).map (·.2)

inductive HeaderError where
  | invalidEncoding
  | invalidJson
  | malformedHeader (field : String)
deriving Repr, DecidableEq

def parsePaymentPayload (j : Json) : Except HeaderError PaymentPayload :=
  match j with
  | .obj fields =>
    match jsonLookup fields "x402Version" with
    | some (.num v) =>
      (match jsonLookup fields "scheme" with
       | some (.str sch) =>
         if sch.isEmpty then .error (.malformedHeader "scheme")
         else
           match jsonLookup fields "network" with
           | some (.str net) =>
             if net.isEmpty then .error (.malformedHeader "network")
             else
               match jsonLookup fields "payload" with
               | some (.obj pf) => .ok ⟨v, sch, net, .obj pf⟩
               | _ => .error (.malformedHeader "payload")
           | _ => .error (.malformedHeader "network")
       | _ => .error (.malformedHeader "scheme"))
    | _ => .error (.malformedHeader "x402Version")
  | _ => .error (.malformedHeader "x402Version")

def encodePaymentHeader (p : PaymentPayload) : List Char :=
  safeBase64Encode (stringify (paymentPayloadToJson p))

def decodePaymentHeader (s : List Char) : Except HeaderError PaymentPayload :=
  match safeBase64Decode s with
  | .error _ => .error .invalidEncoding
  | .ok t =>
    match jsonParse t with
    | none => .error .invalidJson
    | some j => parsePaymentPayload j

/-- A payload the protocol can actually put on the wire: non-empty scheme
and network identifiers, an object as the scheme-specific payload, and a
JSON serialization whose characters the `btoa` code path accepts (every
UTF-16 unit below 256 — true of all ASCII protocol data). -/
def WellFormedPayload (p : PaymentPayload) : Bool :=
  !p.scheme.isEmpty && !p.network.isEmpty &&
    (match p.payload with | .obj _ => true | _ => false) &&
    (stringify (paymentPayloadToJson p)).all fun c => c.toNat < 256

theorem parsePaymentPayload_toJson (p : PaymentPayload)
    (hs : p.scheme.isEmpty = false) (hn : p.network.isEmpty = false)
    (hp : ∃ pf, p.payload = .obj pf) :
    parsePaymentPayload (paymentPayloadToJson p) = .ok p := by
  obtain ⟨pf, hpf⟩ := hp
  obtain ⟨v, sch, net, pl⟩ := p
  simp only at hs hn hpf
  subst hpf
  simp [parsePaymentPayload, paymentPayloadToJson, jsonLookup, hs, hn]

/-- C4: round-trip identity of the base64 codec composed with the header
codec — for every well-formed payment payload, decoding the encoded header
yields the payload back. -/
theorem decodePaymentHeader_encode (p : PaymentPayload)
    (h : WellFormedPayload p = true) :
    decodePaymentHeader (encodePaymentHeader p) = .ok p := by
  simp only [WellFormedPayload, Bool.and_eq_true, Bool.not_eq_true',
    List.all_eq_true, decide_eq_true_eq] at h
  obtain ⟨⟨⟨hs, hn⟩, hobj⟩, hchars⟩ := h
  have hne : stringify (paymentPayloadToJson p) ≠ [] := by
    simp [paymentPayloadToJson, stringify]
  have hex : ∃ pf, p.payload = .obj pf := by
    revert hobj
    cases p.payload <;> intro hobj <;> simp_all
  simp only [encodePaymentHeader, decodePaymentHeader,
    safeBase64Decode_encode hne hchars, jsonParse_stringify]
  exact parsePaymentPayload_toJson p hs hn hex

/-! ## Shared protocol records

Mirrors `PaymentRequirements` and `VerifyResponse` as laid out both in
`go/bin/facilitator_local.go` and in the TypeScript `x402Specs` types. -/

structure PaymentRequirements where
  scheme : String
  network : String
  maxAmountRequired : String
  resource : String
  description : String
  mimeType : String
  outputSchema : Option Json
  payTo : String
  maxTimeoutSeconds : Int
  asset : String
  extra : Option Json
deriving Repr

structure VerifyResponse where
  isValid : Bool
  invalidReason : Option String
  payer : Option String
deriving Repr, DecidableEq

/-! ## The local facilitator `/verify` handler (`facilitator_local.go`) -/

structure ExactEvmAuthorization where
  fromAddress : String
  toAddress : String
  value : String
  validAfter : String
  validBefore : String
  nonce : String
deriving Repr, DecidableEq

structure ExactEvmPayload where
  signature : String
  authorization : ExactEvmAuthorization
deriving Repr, DecidableEq

/-- Go `json.Unmarshal` of one string field of a struct: absent or `null`
gives the zero value, a string gives the string, any other shape is an
unmarshalling error. -/
def goStringField (fields : List (String × Json)) (k : String) : Option String :=
  match jsonLookup fields k with
  | none => some ""
  | some .null => some ""
  | some (.str s) => some s
  | some _ => none

/-- `parseExactEvmFrom`: decode the raw scheme payload as an EVM payload;
`nil` (here `none`) when unmarshalling fails or no authorization is
present. -/
def parseExactEvmFrom (j : Json) : Option ExactEvmPayload :=
  match j with
  | .obj fs =>
    (goStringField fs "signature").bind fun sig =>
      match jsonLookup fs "authorization" with
      | none => none
      | some .null => none
      | some (.obj afs) =>
        (goStringField afs "from").bind fun f =>
          (goStringField afs "to").bind fun t =>
            (goStringField afs "value").bind fun v =>
              (goStringField afs "validAfter").bind fun va =>
                (goStringField afs "validBefore").bind fun vb =>
                  (goStringField afs "nonce").map fun n =>
                    ⟨sig, ⟨f, t, v, va, vb, n⟩⟩
      | some _ => none
  | .null => none
  | _ => none

structure VerifyRequest where
  x402Version : Int
  paymentPayload : PaymentPayload
  paymentRequirements : PaymentRequirements

/-- `handleVerify` on a successfully decoded request body: scheme/network
mismatch is reported as `isValid:false` with reason
`invalid_payment_requirements`; otherwise the request is valid and the
payer is extracted from the EVM authorization when one parses. -/
def handleVerify (req : VerifyRequest) : VerifyResponse :=
  if req.paymentPayload.scheme ≠ req.paymentRequirements.scheme ∨
      req.paymentPayload.network ≠ req.paymentRequirements.network then
    ⟨false, some "invalid_payment_requirements", none⟩
  else
    ⟨true, none,
      (parseExactEvmFrom req.paymentPayload.payload).map
        fun evm => evm.authorization.fromAddress⟩

/-! ## The resource-server verification flow
(`examples/typescript/servers/advanced/index.ts`, `verifyPayment`) -/

/-- Modelled from the spec: `findMatchingPaymentRequirements` (imported from
`x402/shared`, whose source is not part of this tree) selects the offered
requirement whose `scheme` and `network` exactly equal the decoded
payload's. -/
def findMatchingPaymentRequirements (reqs : List PaymentRequirements)
    (p : PaymentPayload) : Option PaymentRequirements :=
  reqs.find? fun r => r.scheme == p.scheme && r.network == p.network

structure Body402 where
  x402Version : Int
  error : Option String
  accepts : List PaymentRequirements
  payer : Option String
deriving Repr

inductive ServerReply where
  | proceed
  | payment402 (body : Body402)
deriving Repr

/-- `verifyPayment`.  `decodePayment` stands for `exact.evm.decodePayment`
and `verify` for the facilitator call, both injected so the flow itself is
exact: missing header → 402; decode failure → 402; select the matching
requirement __or fall back to the first one__ (the `|| paymentRequirements[0]`
of the source); call verify; `isValid:false` or a thrown error → 402;
otherwise proceed.  (The sub-branch for an empty requirements list models
the `undefined` the JavaScript would pass to `verify`; every route passes a
non-empty list.) -/
def verifyPayment
    (decodePayment : String → Except String PaymentPayload)
    (verify : PaymentPayload → PaymentRequirements → Except String VerifyResponse)
    (header : Option String)
    (paymentRequirements : List PaymentRequirements) : ServerReply :=
  match header with
  | none =>
    .payment402 ⟨1, some "X-PAYMENT header is required", paymentRequirements, none⟩
  | some payment =>
    match decodePayment payment with
    | .error e => .payment402 ⟨1, some e, paymentRequirements, none⟩
    | .ok dp0 =>
      let dp : PaymentPayload := { dp0 with x402Version := 1 }
      match (findMatchingPaymentRequirements paymentRequirements dp).orElse
          (fun _ => paymentRequirements.head?) with
      | none =>
        .payment402 ⟨1, some "undefined payment requirement", paymentRequirements, none⟩
      | some selected =>
        match verify dp selected with
        | .error e => .payment402 ⟨1, some e, paymentRequirements, none⟩
        | .ok resp =>
          if !resp.isValid then
            .payment402 ⟨1, resp.invalidReason, paymentRequirements, resp.payer⟩
          else .proceed

/-! ## The client payment interceptor (`x402-axios/src/index.ts`)

The response-error handler installed by `withPaymentInterceptor`.  The
pieces the package imports from `x402` (`PaymentRequirementsSchema.parse`,
the requirements selector, `createPaymentHeader`) and the network derived
from the wallet are injected as an environment, exactly as the function
receives them as arguments or module imports. -/

structure RequestConfig where
  url : Option String
  baseURL : Option String
  headers : Option (List (String × String))
  is402Retry : Bool
deriving Repr, DecidableEq

inductive ResponseData where
  | text (s : List Char)
  | val (j : Json)
deriving Repr

structure HttpResponse where
  status : Nat
  data : ResponseData
  headers : List (String × String)
deriving Repr

structure AxiosError where
  response : Option HttpResponse
  config : Option RequestConfig
deriving Repr

inductive NetworkPreference where
  | unspecified
  | single (n : String)
  | multi (ns : List String)
deriving Repr, DecidableEq

structure InterceptorEnv where
  parseReq : Json → Except String PaymentRequirements
  selector : List PaymentRequirements → NetworkPreference → String →
    Except String PaymentRequirements
  signer : Int → PaymentRequirements → Except String String
  netpref : NetworkPreference

/-- The distinct ways the handler can reject; `passThrough` and
`alreadyRetried` reject with the incoming error object itself, the others
with a fresh `Error` whose message is fixed by the source. -/
inductive RejectReason where
  | passThrough (e : AxiosError)
  | missingConfig
  | alreadyRetried (e : AxiosError)
  | invalidResponseFormat
  | dataNotObject
  | missingVersion
  | missingAccepts
  | parseRequirementsFailed (msg : String)
  | selectFailed (msg : String)
  | signFailed (msg : String)
deriving Repr

inductive InterceptStep where
  | reject (r : RejectReason)
  | retry (mutatedOriginal retryConfig : RequestConfig) (header : String)
deriving Repr

/-- JavaScript falsiness of a JSON value (`!responseData`). -/
def jsFalsy : Json → Bool
  | .null => true
  | .bool b => !b
  | .num n => n == 0
  | .str s => s.isEmpty
  | _ => false

/-- `typeof responseData === "object"` for a JSON value. -/
def jsTypeofObject : Json → Bool
  | .null => true
  | .obj _ => true
  | .arr _ => true
  | _ => false

/-- JavaScript property read (`responseData.x402Version`): defined only on
objects here, `undefined` elsewhere. -/
def jsGet (j : Json) (k : String) : Option Json :=
  match j with
  | .obj fs => jsonLookup fs k
  | _ => none

def setHeader (hs : List (String × String)) (k v : String) :
    List (String × String) :=
  if hs.any fun h => h.1 == k then
    hs.map fun h => if h.1 == k then (k, v) else h
  else hs ++ [(k, v)]

/-- Lines 182-214 of the interceptor: set `__is402Retry` and the
`X-PAYMENT` header __on the original config object__, then, only when the
request URL is absolute and a `baseURL` is present, build a shallow copy
with `baseURL` cleared to reissue; otherwise reissue the (mutated) original
config itself.  The first component is the original config after the
handler ran, the second the config handed to `axiosClient.request`. -/
def isAbsoluteUrl : Option String → Bool
  | some u => "http://".toList.isPrefixOf u.toList ||
      "https://".toList.isPrefixOf u.toList
  | none => false

def attachRetry (cfg : RequestConfig) (hs : List (String × String))
    (header : String) : RequestConfig × RequestConfig :=
  let mutated : RequestConfig :=
    { cfg with is402Retry := true, headers := some (setHeader hs "X-PAYMENT" header) }
  match isAbsoluteUrl cfg.url && cfg.baseURL.isSome with
  | true => (mutated, { mutated with baseURL := none })
  | false => (mutated, mutated)

/-- The response data as the handler sees it after the
`typeof data === "string"` JSON-parse step. -/
def responseJson : ResponseData → Option Json
  | .text s => jsonParse s
  | .val j => some j

/-- The body of the 402 branch, after the config and retry-flag checks. -/
def interceptCore (env : InterceptorEnv) (resp : HttpResponse)
    (cfg : RequestConfig) (hs : List (String × String)) : InterceptStep :=
  match responseJson resp.data with
  | none => .reject .invalidResponseFormat
  | some j =>
    if jsFalsy j || !jsTypeofObject j then .reject .dataNotObject
    else
      match jsGet j "x402Version" with
      | some (.num v) =>
        (match jsGet j "accepts" with
         | some (.arr accepts) =>
           (match accepts.mapM env.parseReq with
            | .error m => .reject (.parseRequirementsFailed m)
            | .ok parsed =>
              match env.selector parsed env.netpref "exact" with
              | .error m => .reject (.selectFailed m)
              | .ok selected =>
                match env.signer v selected with
                | .error m => .reject (.signFailed m)
                | .ok paymentHeader =>
                  let pair := attachRetry cfg hs paymentHeader
                  .retry pair.1 pair.2 paymentHeader)
         | _ => .reject .missingAccepts)
      | _ => .reject .missingVersion

/-- The installed rejection handler: pass through non-402 errors, reject on
a missing config or headers object, surface the error unchanged when the
config is already flagged as a retry, otherwise run the payment flow. -/
def interceptOnRejected (env : InterceptorEnv) (e : AxiosError) : InterceptStep :=
  match e.response with
  | none => .reject (.passThrough e)
  | some resp =>
    if resp.status ≠ 402 then .reject (.passThrough e)
    else
      match e.config with
      | none => .reject .missingConfig
      | some cfg =>
        match cfg.headers with
        | none => .reject .missingConfig
        | some hs =>
          if cfg.is402Retry then .reject (.alreadyRetried e)
          else interceptCore env resp cfg hs

/-! ### Running requests through the interceptor

Axios turns a non-2xx response into an error carrying the response and the
config of the request that produced it, and the error goes to the handler
above; a retry issued by the handler goes through the same client, so its
402 reaches the handler again.  `runClient` models this loop with explicit
fuel and counts the requests actually issued. -/

def is2xx (status : Nat) : Bool := 200 ≤ status && status < 300

inductive Outcome where
  | success (r : HttpResponse)
  | rejected (r : RejectReason)
deriving Repr

def runClient (env : InterceptorEnv) (server : RequestConfig → HttpResponse) :
    Nat → RequestConfig → Option (Outcome × Nat)
  | 0, _ => none
  | fuel + 1, cfg =>
    let resp := server cfg
    if is2xx resp.status then some (.success resp, 1)
    else
      match interceptOnRejected env ⟨some resp, some cfg⟩ with
      | .reject r => some (.rejected r, 1)
      | .retry _ retryCfg _ =>
        (runClient env server fuel retryCfg).map fun p => (p.1, p.2 + 1)

/-! ### Facts about the retry step -/

theorem attachRetry_mutates (cfg : RequestConfig) (hs : List (String × String))
    (h : String) :
    (attachRetry cfg hs h).1 =
      { cfg with is402Retry := true,
                 headers := some (setHeader hs "X-PAYMENT" h) } ∧
    ((attachRetry cfg hs h).2 = (attachRetry cfg hs h).1 ∨
      (attachRetry cfg hs h).2 = { (attachRetry cfg hs h).1 with baseURL := none }) := by
  unfold attachRetry
  cases hb : isAbsoluteUrl cfg.url && cfg.baseURL.isSome <;> simp [hb]

theorem attachRetry_flag (cfg : RequestConfig) (hs : List (String × String))
    (h : String) :
    (attachRetry cfg hs h).2.is402Retry = true ∧
    (attachRetry cfg hs h).2.headers = some (setHeader hs "X-PAYMENT" h) := by
  unfold attachRetry
  cases hb : isAbsoluteUrl cfg.url && cfg.baseURL.isSome <;> simp [hb]

set_option maxHeartbeats 1000000 in
theorem interceptCore_retry {env : InterceptorEnv} {resp : HttpResponse}
    {cfg : RequestConfig} {hs : List (String × String)}
    {m r : RequestConfig} {h : String}
    (heq : interceptCore env resp cfg hs = .retry m r h) :
    (m, r) = attachRetry cfg hs h := by
  unfold interceptCore at heq
  repeat' split at heq
  all_goals simp_all
  obtain ⟨h1, h2, h3⟩ := heq
  subst h3
  rw [← h1, ← h2]

set_option maxHeartbeats 1000000 in
theorem interceptOnRejected_retry {env : InterceptorEnv} {e : AxiosError}
    {m r : RequestConfig} {h : String}
    (heq : interceptOnRejected env e = .retry m r h) :
    ∃ resp cfg hs, e.response = some resp ∧ resp.status = 402 ∧
      e.config = some cfg ∧ cfg.headers = some hs ∧ cfg.is402Retry = false ∧
      (m, r) = attachRetry cfg hs h := by
  unfold interceptOnRejected at heq
  repeat' split at heq
  all_goals simp_all
  exact interceptCore_retry heq

theorem interceptOnRejected_flagged (env : InterceptorEnv) {e : AxiosError}
    {resp : HttpResponse} {cfg : RequestConfig} {hs : List (String × String)}
    (hr : e.response = some resp) (hst : resp.status = 402)
    (hc : e.config = some cfg) (hh : cfg.headers = some hs)
    (hf : cfg.is402Retry = true) :
    interceptOnRejected env e = .reject (.alreadyRetried e) := by
  unfold interceptOnRejected
  rw [hr]
  dsimp only
  simp [hst, hc, hh, hf]

theorem interceptOnRejected_pass (env : InterceptorEnv) {e : AxiosError}
    {resp : HttpResponse} (hre : e.response = some resp)
    (hst : resp.status ≠ 402) :
    interceptOnRejected env e = .reject (.passThrough e) := by
  unfold interceptOnRejected
  rw [hre]
  dsimp only
  simp [hst]

theorem runClient_succ (env : InterceptorEnv)
    (server : RequestConfig → HttpResponse) (fuel : Nat) (cfg : RequestConfig) :
    runClient env server (fuel + 1) cfg =
      (if is2xx (server cfg).status then some (.success (server cfg), 1)
       else
         match interceptOnRejected env ⟨some (server cfg), some cfg⟩ with
         | .reject r => some (.rejected r, 1)
         | .retry _ retryCfg _ =>
           (runClient env server fuel retryCfg).map fun p => (p.1, p.2 + 1)) := rfl

theorem is2xx_402 : is2xx 402 = false := by decide

/-- C1: at most one paid retry — starting from an unflagged config, the run
issues at most two requests, and when the retried request itself comes
back 402 the surfaced outcome is the second error object itself, rejected
through the already-retried branch, with no third request. -/
theorem interceptor_at_most_one_retry (env : InterceptorEnv)
    (server : RequestConfig → HttpResponse) (cfg : RequestConfig) (fuel : Nat)
    (h0 : cfg.is402Retry = false) (hf : 2 ≤ fuel) :
    ∃ o n, runClient env server fuel cfg = some (o, n) ∧ n ≤ 2 ∧
      ∀ m rCfg ph,
        interceptOnRejected env ⟨some (server cfg), some cfg⟩ = .retry m rCfg ph →
        (server rCfg).status = 402 →
        o = .rejected (.alreadyRetried ⟨some (server rCfg), some rCfg⟩) ∧ n = 2 := by
  obtain ⟨k, rfl⟩ : ∃ k, fuel = k + 2 := ⟨fuel - 2, by omega⟩
  by_cases h2 : is2xx (server cfg).status = true
  · refine ⟨.success (server cfg), 1, ?_, by omega, ?_⟩
    · rw [show (k + 2) = (k + 1) + 1 from rfl, runClient_succ, if_pos h2]
    · intro m rCfg ph hret hst
      obtain ⟨resp, cfg2, hs, hre, hst402, hcfg2, hh, hflag, hpair⟩ :=
        interceptOnRejected_retry hret
      have hrespeq : resp = server cfg := by
        simpa using hre.symm
      rw [hrespeq] at hst402
      rw [hst402] at h2
      exact absurd h2 (by decide)
  · cases hstep : interceptOnRejected env ⟨some (server cfg), some cfg⟩ with
    | reject r =>
      refine ⟨.rejected r, 1, ?_, by omega, ?_⟩
      · rw [show (k + 2) = (k + 1) + 1 from rfl, runClient_succ, if_neg h2, hstep]
      · intro m rCfg ph hret hst
        exact absurd hret (by simp)
    | retry m0 rCfg0 ph0 =>
      obtain ⟨resp, cfg2, hs, hre, hst402, hcfg2, hh, hflag, hpair⟩ :=
        interceptOnRejected_retry hstep
      have hrespeq : resp = server cfg := by simpa using hre.symm
      have hcfgeq : cfg = cfg2 := by simpa using hcfg2
      subst hrespeq hcfgeq
      have hr0 : rCfg0 = (attachRetry cfg hs ph0).2 := by
        rw [← hpair]
      have hflag2 : rCfg0.is402Retry = true := by
        rw [hr0]; exact (attachRetry_flag cfg hs ph0).1
      have hheaders : rCfg0.headers = some (setHeader hs "X-PAYMENT" ph0) := by
        rw [hr0]; exact (attachRetry_flag cfg hs ph0).2
      by_cases h2b : is2xx (server rCfg0).status = true
      · refine ⟨.success (server rCfg0), 2, ?_, by omega, ?_⟩
        · rw [show (k + 2) = (k + 1) + 1 from rfl, runClient_succ, if_neg h2,
            hstep]
          dsimp only
          rw [runClient_succ, if_pos h2b]
          rfl
        · intro m rCfg ph hret hst
          injection hret with hm hrc hph
          rw [← hrc] at hst
          rw [hst] at h2b
          exact absurd h2b (by decide)
      · by_cases hst2 : (server rCfg0).status = 402
        · have hsec := interceptOnRejected_flagged env
            (e := ⟨some (server rCfg0), some rCfg0⟩) rfl hst2 rfl hheaders hflag2
          refine ⟨.rejected (.alreadyRetried ⟨some (server rCfg0), some rCfg0⟩),
            2, ?_, by omega, ?_⟩
          · rw [show (k + 2) = (k + 1) + 1 from rfl, runClient_succ, if_neg h2,
              hstep]
            dsimp only
            rw [runClient_succ, if_neg h2b, hsec]
            rfl
          · intro m rCfg ph hret hst
            injection hret with hm hrc hph
            rw [← hrc]
            exact ⟨rfl, rfl⟩
        · have hsec := interceptOnRejected_pass env
            (e := ⟨some (server rCfg0), some rCfg0⟩) rfl hst2
          refine ⟨.rejected (.passThrough ⟨some (server rCfg0), some rCfg0⟩),
            2, ?_, by omega, ?_⟩
          · rw [show (k + 2) = (k + 1) + 1 from rfl, runClient_succ, if_neg h2,
              hstep]
            dsimp only
            rw [runClient_succ, if_neg h2b, hsec]
            rfl
          · intro m rCfg ph hret hst
            injection hret with hm hrc hph
            rw [← hrc] at hst
            exact absurd hst hst2

/-! ### Concrete fixtures for closed instances -/

def reqFix : PaymentRequirements :=
  ⟨"exact", "base-sepolia", "1000", "https://api.example.com/premium", "d",
   "application/json", none, "0xpayTo", 60, "0xasset", none⟩

def envFix : InterceptorEnv :=
  ⟨fun _ => .ok reqFix,
   fun rs _ _ => match rs.head? with | some r => .ok r | none => .error "empty",
   fun _ _ => .ok "HDR",
   .unspecified⟩

def cfgFix : RequestConfig := ⟨some "/premium", none, some [], false⟩

def body402Fix : Json := .obj [("x402Version", .num 1), ("accepts", .arr [.null])]

def respFix : HttpResponse := ⟨402, .val body402Fix, []⟩

def serverFix : RequestConfig → HttpResponse := fun _ => respFix

theorem interceptor_at_most_one_retry_witness :
    cfgFix.is402Retry = false ∧ 2 ≤ 2 ∧
      (∃ o n, runClient envFix serverFix 2 cfgFix = some (o, n) ∧ n ≤ 2 ∧
        ∀ m rCfg ph,
          interceptOnRejected envFix ⟨some (serverFix cfgFix), some cfgFix⟩ =
            .retry m rCfg ph →
          (serverFix rCfg).status = 402 →
          o = .rejected (.alreadyRetried ⟨some (serverFix rCfg), some rCfg⟩) ∧
            n = 2) :=
  ⟨rfl, by omega,
   interceptor_at_most_one_retry envFix serverFix cfgFix 2 rfl (by omega)⟩

/-- The mutated original / retry configs of a run that clears `baseURL`. -/
def cfgAbsFix : RequestConfig :=
  ⟨some "https://api.example.com/premium", some "https://api.example.com",
   some [], false⟩

def mutAbsFix : RequestConfig :=
  ⟨some "https://api.example.com/premium", some "https://api.example.com",
   some [("X-PAYMENT", "HDR")], true⟩

def retAbsFix : RequestConfig :=
  ⟨some "https://api.example.com/premium", none,
   some [("X-PAYMENT", "HDR")], true⟩

/-- C3, counterexample: on a concrete 402 the handler hands back as
"original config after the handler ran" a config that differs from the one
the request was issued with — the flag and header were attached to the
original object, not to a clone. -/
theorem interceptor_retry_mutates_counterexample :
    interceptOnRejected envFix ⟨some respFix, some cfgFix⟩ =
      .retry ⟨some "/premium", none, some [("X-PAYMENT", "HDR")], true⟩
             ⟨some "/premium", none, some [("X-PAYMENT", "HDR")], true⟩ "HDR" ∧
    (⟨some "/premium", none, some [("X-PAYMENT", "HDR")], true⟩ : RequestConfig) ≠
      cfgFix := by
  constructor
  · rfl
  · intro hcontra
    exact absurd (congrArg RequestConfig.is402Retry hcontra) (by decide)

/-- C3 (amended): whenever the handler retries, the original config object
itself has been mutated — retry flag set and `X-PAYMENT` header written into
its headers — and the config actually reissued is that mutated original,
except that a shallow copy with `baseURL` cleared is used when the request
URL is absolute and a `baseURL` is present. -/
theorem interceptor_retry_mutates_original (env : InterceptorEnv)
    (e : AxiosError) (m r : RequestConfig) (h : String)
    (hret : interceptOnRejected env e = .retry m r h) :
    ∃ cfg hs, e.config = some cfg ∧ cfg.headers = some hs ∧
      m = { cfg with is402Retry := true,
                     headers := some (setHeader hs "X-PAYMENT" h) } ∧
      ((isAbsoluteUrl cfg.url && cfg.baseURL.isSome) = true →
        r = { m with baseURL := none }) ∧
      ((isAbsoluteUrl cfg.url && cfg.baseURL.isSome) = false → r = m) := by
  obtain ⟨resp, cfg, hs, hre, hst, hcfg, hh, hflag, hpair⟩ :=
    interceptOnRejected_retry hret
  unfold attachRetry at hpair
  refine ⟨cfg, hs, hcfg, hh, ?_⟩
  cases hb : isAbsoluteUrl cfg.url && cfg.baseURL.isSome with
  | true =>
    rw [hb] at hpair
    dsimp only at hpair
    rw [Prod.mk.injEq] at hpair
    obtain ⟨hm, hr⟩ := hpair
    subst hm
    exact ⟨rfl, fun _ => hr, fun hc => absurd hc (by simp)⟩
  | false =>
    rw [hb] at hpair
    dsimp only at hpair
    rw [Prod.mk.injEq] at hpair
    obtain ⟨hm, hr⟩ := hpair
    subst hm
    exact ⟨rfl, fun hc => absurd hc (by simp), fun _ => hr⟩

theorem interceptor_retry_mutates_original_witness :
    interceptOnRejected envFix ⟨some respFix, some cfgAbsFix⟩ =
      .retry mutAbsFix retAbsFix "HDR" ∧
    (∃ cfg hs,
      (⟨some respFix, some cfgAbsFix⟩ : AxiosError).config = some cfg ∧
      cfg.headers = some hs ∧
      mutAbsFix = { cfg with is402Retry := true,
                             headers := some (setHeader hs "X-PAYMENT" "HDR") } ∧
      ((isAbsoluteUrl cfg.url && cfg.baseURL.isSome) = true →
        retAbsFix = { mutAbsFix with baseURL := none }) ∧
      ((isAbsoluteUrl cfg.url && cfg.baseURL.isSome) = false →
        retAbsFix = mutAbsFix)) := by
  constructor
  · rfl
  · exact interceptor_retry_mutates_original envFix
      ⟨some respFix, some cfgAbsFix⟩ mutAbsFix retAbsFix "HDR" (by rfl)

theorem mapM_loop_not_ok {α β : Type} (f : α → Except String β) (x : α)
    (hf : ∀ q, f x ≠ Except.ok q) :
    ∀ (xs : List α) (acc : List β), x ∈ xs →
      ∀ ys, List.mapM.loop f xs acc ≠ Except.ok ys := by
  intro xs
  induction xs with
  | nil => intro acc hx; exact absurd hx (List.not_mem_nil x)
  | cons y t ih =>
    intro acc hx ys
    rw [List.mapM.loop]
    cases hy : f y with
    | error e => intro hcontra; exact Except.noConfusion hcontra
    | ok b =>
      rcases List.mem_cons.mp hx with h1 | h2
      · subst h1; exact absurd hy (hf b)
      · exact fun hcontra => ih (b :: acc) h2 ys hcontra

theorem mapM_not_ok {α β : Type} (f : α → Except String β) (x : α)
    (hf : ∀ q, f x ≠ Except.ok q) (xs : List α) (hx : x ∈ xs) :
    ∀ ys, xs.mapM f ≠ Except.ok ys := by
  intro ys
  show List.mapM.loop f xs [] ≠ Except.ok ys
  exact mapM_loop_not_ok f x hf xs [] hx ys

/-- C6: on a 402 whose body is not JSON, is not an object, lacks a numeric
x402Version or an array accepts, or whose accepts has an element the
requirements schema rejects, the handler rejects and the run stops after
the single request already issued: no retry. -/
theorem interceptor_rejects_bad_402_body (env : InterceptorEnv)
    (server : RequestConfig → HttpResponse) (cfg : RequestConfig)
    (hs : List (String × String)) (resp : HttpResponse) (fuel : Nat)
    (hresp : server cfg = resp) (hst : resp.status = 402)
    (hh : cfg.headers = some hs) (hflag : cfg.is402Retry = false)
    (hfuel : 1 ≤ fuel)
    (hbad :
      responseJson resp.data = none ∨
      (∃ j, responseJson resp.data = some j ∧
        (jsFalsy j || !jsTypeofObject j) = true) ∨
      (∃ j, responseJson resp.data = some j ∧
        (jsFalsy j || !jsTypeofObject j) = false ∧
        ∀ v : Int, jsGet j "x402Version" ≠ some (.num v)) ∨
      (∃ j, responseJson resp.data = some j ∧
        (jsFalsy j || !jsTypeofObject j) = false ∧
        ∀ l, jsGet j "accepts" ≠ some (.arr l)) ∨
      (∃ j accepts x, responseJson resp.data = some j ∧ x ∈ accepts ∧
        jsGet j "accepts" = some (.arr accepts) ∧
        ∀ q, env.parseReq x ≠ .ok q)) :
    ∃ reason, interceptOnRejected env ⟨some resp, some cfg⟩ = .reject reason ∧
      runClient env server fuel cfg = some (.rejected reason, 1) := by
  suffices hcore : ∃ reason, interceptCore env resp cfg hs = .reject reason by
    obtain ⟨reason, hr⟩ := hcore
    have hio : interceptOnRejected env ⟨some resp, some cfg⟩ = .reject reason := by
      unfold interceptOnRejected
      dsimp only
      simp [hst, hh, hflag, hr]
    refine ⟨reason, hio, ?_⟩
    obtain ⟨k, rfl⟩ : ∃ k, fuel = k + 1 := ⟨fuel - 1, by omega⟩
    rw [runClient_succ, hresp]
    rw [if_neg (by rw [hst]; decide), hio]
  rcases hbad with hA | ⟨j, hj, hB⟩ | ⟨j, hj, hnb, hC⟩ | ⟨j, hj, hnb, hD⟩ |
      ⟨j, accepts, x, hj, hx, hacc, hpf⟩
  · exact ⟨.invalidResponseFormat, by unfold interceptCore; rw [hA]⟩
  · refine ⟨.dataNotObject, ?_⟩
    unfold interceptCore
    rw [hj]
    dsimp only
    rw [if_pos hB]
  · unfold interceptCore
    rw [hj]
    dsimp only
    rw [if_neg (by simp [hnb])]
    cases hvv : jsGet j "x402Version" with
    | none => exact ⟨_, rfl⟩
    | some xv =>
      cases xv with
      | num v => exact absurd hvv (hC v)
      | null => exact ⟨_, rfl⟩
      | bool b => exact ⟨_, rfl⟩
      | str s => exact ⟨_, rfl⟩
      | arr l => exact ⟨_, rfl⟩
      | obj fs => exact ⟨_, rfl⟩
  · unfold interceptCore
    rw [hj]
    dsimp only
    rw [if_neg (by simp [hnb])]
    cases hvv : jsGet j "x402Version" with
    | none => exact ⟨_, rfl⟩
    | some xv =>
      cases xv with
      | num v =>
        cases hav : jsGet j "accepts" with
        | none => exact ⟨_, rfl⟩
        | some av =>
          cases av with
          | arr l => exact absurd hav (hD l)
          | null => exact ⟨_, rfl⟩
          | bool b => exact ⟨_, rfl⟩
          | num n => exact ⟨_, rfl⟩
          | str s => exact ⟨_, rfl⟩
          | obj fs => exact ⟨_, rfl⟩
      | null => exact ⟨_, rfl⟩
      | bool b => exact ⟨_, rfl⟩
      | str s => exact ⟨_, rfl⟩
      | arr l => exact ⟨_, rfl⟩
      | obj fs => exact ⟨_, rfl⟩
  · unfold interceptCore
    rw [hj]
    dsimp only
    by_cases hfb : (jsFalsy j || !jsTypeofObject j) = true
    · rw [if_pos hfb]
      exact ⟨_, rfl⟩
    · rw [if_neg hfb]
      cases hvv : jsGet j "x402Version" with
      | none => exact ⟨_, rfl⟩
      | some xv =>
        cases xv with
        | num v =>
          rw [hacc]
          cases hm : accepts.mapM env.parseReq with
          | error m =>
            refine ⟨.parseRequirementsFailed m, ?_⟩
            dsimp only
            rw [hm]
          | ok parsed => exact absurd hm (mapM_not_ok env.parseReq x hpf accepts hx parsed)
        | null => exact ⟨_, rfl⟩
        | bool b => exact ⟨_, rfl⟩
        | str s => exact ⟨_, rfl⟩
        | arr l => exact ⟨_, rfl⟩
        | obj fs => exact ⟨_, rfl⟩

def envBadReq : InterceptorEnv :=
  ⟨fun _ => .error "bad requirement", fun _ _ _ => .error "no selector",
   fun _ _ => .error "no signer", .unspecified⟩

def respBadAccepts : HttpResponse :=
  ⟨402, .val (.obj [("x402Version", .num 1), ("accepts", .arr [.str "oops"])]),
   []⟩

def serverBadAccepts : RequestConfig → HttpResponse := fun _ => respBadAccepts

theorem interceptor_rejects_bad_402_body_witness :
    respBadAccepts.status = 402 ∧ cfgFix.is402Retry = false ∧
    (∀ q, envBadReq.parseReq (.str "oops") ≠ .ok q) ∧
    (∃ reason,
      interceptOnRejected envBadReq ⟨some respBadAccepts, some cfgFix⟩ =
        .reject reason ∧
      runClient envBadReq serverBadAccepts 1 cfgFix =
        some (.rejected reason, 1)) := by
  refine ⟨rfl, rfl, fun q h => Except.noConfusion h, ?_⟩
  exact interceptor_rejects_bad_402_body envBadReq serverBadAccepts cfgFix []
    respBadAccepts 1 rfl rfl rfl rfl (le_refl 1)
    (Or.inr (Or.inr (Or.inr (Or.inr
      ⟨Json.obj [("x402Version", .num 1), ("accepts", .arr [.str "oops"])],
       [.str "oops"], .str "oops", rfl, List.mem_cons_self _ _, rfl,
       fun q h => Except.noConfusion h⟩))))

/-- C7: a request without an X-PAYMENT header is answered 402 with the fixed
error string and accepts equal to the configured requirements list; the
body is a function of the configuration alone — the same explicit value for
every decoder and verifier — so repeated header-less calls get the
identical body. -/
theorem verifyPayment_missing_header
    (decodePayment : String → Except String PaymentPayload)
    (verify : PaymentPayload → PaymentRequirements → Except String VerifyResponse)
    (paymentRequirements : List PaymentRequirements) :
    verifyPayment decodePayment verify none paymentRequirements =
      .payment402
        ⟨1, some "X-PAYMENT header is required", paymentRequirements, none⟩ := rfl

def payloadMismatch : PaymentPayload := ⟨1, "exact", "solana", .obj []⟩

/-- C2, counterexample: the single offered requirement is for
base-sepolia, the decoded payload is for solana — no requirement matches —
yet the flow falls back to the first requirement and, when the facilitator
validates it, serves the content instead of responding 402. -/
theorem verifyPayment_no_fallback_counterexample :
    findMatchingPaymentRequirements [reqFix]
      { payloadMismatch with x402Version := 1 } = none ∧
    verifyPayment (fun _ => .ok payloadMismatch)
      (fun _ _ => .ok ⟨true, none, none⟩)
      (some "hdr") [reqFix] = .proceed := ⟨rfl, rfl⟩

/-- C2 (amended): when the decoded payload matches none of the offered
requirements, `verifyPayment` does not stop with a 402: it selects the
first requirement of the list and delegates the outcome to the verifier
run against that first requirement. -/
theorem verifyPayment_falls_back_to_first
    (decodePayment : String → Except String PaymentPayload)
    (verify : PaymentPayload → PaymentRequirements → Except String VerifyResponse)
    (payment : String) (reqs : List PaymentRequirements)
    (r1 : PaymentRequirements) (p : PaymentPayload)
    (hdec : decodePayment payment = .ok p)
    (hhead : reqs.head? = some r1)
    (hnomatch : findMatchingPaymentRequirements reqs
      { p with x402Version := 1 } = none) :
    verifyPayment decodePayment verify (some payment) reqs =
      match verify { p with x402Version := 1 } r1 with
      | .error e => .payment402 ⟨1, some e, reqs, none⟩
      | .ok resp =>
        if !resp.isValid then
          .payment402 ⟨1, resp.invalidReason, reqs, resp.payer⟩
        else .proceed := by
  unfold verifyPayment
  dsimp only
  rw [hdec]
  dsimp only
  rw [hnomatch]
  simp only [Option.orElse]
  rw [hhead]

theorem verifyPayment_falls_back_to_first_witness :
    ((fun _ : String =>
        (Except.ok payloadMismatch : Except String PaymentPayload)) "hdr" =
      Except.ok payloadMismatch) ∧
    ([reqFix].head? = some reqFix) ∧
    (findMatchingPaymentRequirements [reqFix]
      { payloadMismatch with x402Version := 1 } = none) ∧
    verifyPayment (fun _ => .ok payloadMismatch)
      (fun _ _ => .ok ⟨true, none, none⟩) (some "hdr") [reqFix] =
      (match (Except.ok ⟨true, none, none⟩ : Except String VerifyResponse) with
       | .error e => ServerReply.payment402 ⟨1, some e, [reqFix], none⟩
       | .ok resp =>
         if !resp.isValid then
           ServerReply.payment402 ⟨1, resp.invalidReason, [reqFix], resp.payer⟩
         else .proceed) :=
  ⟨rfl, rfl, rfl,
   verifyPayment_falls_back_to_first _ _ "hdr" [reqFix] reqFix payloadMismatch
     rfl rfl rfl⟩

def vreqEmpty : VerifyRequest := ⟨1, ⟨1, "exact", "base-sepolia", .obj []⟩, reqFix⟩

def vreqMismatch : VerifyRequest := ⟨1, payloadMismatch, reqFix⟩

/-- C8, counterexample: a verify request whose scheme and network match the
requirements but whose payload carries no signature and no authorization at
all is reported fully valid — the handler performs no scheme-specific
signature or authorization validity check. -/
theorem handleVerify_no_signature_check_counterexample :
    handleVerify vreqEmpty = ⟨true, none, none⟩ ∧
    parseExactEvmFrom vreqEmpty.paymentPayload.payload = none := ⟨rfl, rfl⟩

/-- C8 (amended): the facilitator checks only the structural scheme/network
match: a mismatch is reported as isValid false with reason
invalid_payment_requirements, and every structurally matching request is
reported isValid true, the payer being extracted when an EVM authorization
parses — signature validity is never examined. -/
theorem handleVerify_mismatch_and_match (req : VerifyRequest) :
    (req.paymentPayload.scheme ≠ req.paymentRequirements.scheme ∨
        req.paymentPayload.network ≠ req.paymentRequirements.network →
      handleVerify req = ⟨false, some "invalid_payment_requirements", none⟩) ∧
    (req.paymentPayload.scheme = req.paymentRequirements.scheme ∧
        req.paymentPayload.network = req.paymentRequirements.network →
      handleVerify req =
        ⟨true, none, (parseExactEvmFrom req.paymentPayload.payload).map
          fun evm => evm.authorization.fromAddress⟩) := by
  constructor
  · intro h
    unfold handleVerify
    rw [if_pos h]
  · intro h
    unfold handleVerify
    rw [if_neg]
    push_neg
    exact h

theorem handleVerify_mismatch_and_match_witness :
    (vreqMismatch.paymentPayload.scheme ≠ vreqMismatch.paymentRequirements.scheme ∨
      vreqMismatch.paymentPayload.network ≠ vreqMismatch.paymentRequirements.network) ∧
    handleVerify vreqMismatch = ⟨false, some "invalid_payment_requirements", none⟩ ∧
    (vreqEmpty.paymentPayload.scheme = vreqEmpty.paymentRequirements.scheme ∧
      vreqEmpty.paymentPayload.network = vreqEmpty.paymentRequirements.network) ∧
    handleVerify vreqEmpty = ⟨true, none,
      (parseExactEvmFrom vreqEmpty.paymentPayload.payload).map
        fun evm => evm.authorization.fromAddress⟩ := by
  refine ⟨Or.inr (by decide), ?_, ⟨rfl, rfl⟩, ?_⟩
  · exact (handleVerify_mismatch_and_match vreqMismatch).1 (Or.inr (by decide))
  · exact (handleVerify_mismatch_and_match vreqEmpty).2 ⟨rfl, rfl⟩

/-- C5, counterexample: a whitespace-only input fails with the
invalid-base64 error although, after stripping, its length is divisible by
4, it has no character outside the alphabet and its padding is not
incorrect — the three conditions of the claim do not cover the input that
normalizes to the empty string. -/
theorem safeBase64Decode_error_empty_counterexample :
    safeBase64Decode [' '] = .error .invalidBase64 ∧
    (stripWhitespace [' ']).length % 4 = 0 ∧
    containsInvalidBase64Char (stripWhitespace [' ']) = false ∧
    incorrectPadding (stripWhitespace [' ']) = false := ⟨rfl, rfl, rfl, rfl⟩

/-- C5 (amended): after stripping whitespace, decode fails with the
invalid-base64 error exactly when the remaining string is empty, its length
is not a multiple of 4, it contains a character outside the base64
alphabet, or its padding is incorrect. -/
theorem safeBase64Decode_error_characterization (s : List Char) :
    safeBase64Decode s = .error .invalidBase64 ↔
      stripWhitespace s = [] ∨ (stripWhitespace s).length % 4 ≠ 0 ∨
        containsInvalidBase64Char (stripWhitespace s) = true ∨
        incorrectPadding (stripWhitespace s) = true :=
  safeBase64Decode_eq_error_iff s

/-- C9: when decode succeeds, the JSON-decoding operation fails with the
invalid-JSON error — distinct from the invalid-base64 error — exactly when
the decoded text does not parse as JSON, and returns the parsed value when
it does. -/
theorem safeBase64DecodeJson_taxonomy (s t : List Char)
    (hok : safeBase64Decode s = .ok t) :
    (jsonParse t = none → safeBase64DecodeJson s = .error .invalidJson) ∧
    (∀ v, jsonParse t = some v → safeBase64DecodeJson s = .ok v) ∧
    Base64Error.invalidJson ≠ Base64Error.invalidBase64 := by
  refine ⟨?_, ?_, by decide⟩
  · intro hp
    unfold safeBase64DecodeJson
    rw [hok]
    dsimp only
    rw [hp]
  · intro v hp
    unfold safeBase64DecodeJson
    rw [hok]
    dsimp only
    rw [hp]

theorem safeBase64DecodeJson_taxonomy_witness :
    safeBase64Decode (safeBase64Encode "not json".toList) =
      .ok "not json".toList ∧
    ((jsonParse "not json".toList = none →
        safeBase64DecodeJson (safeBase64Encode "not json".toList) =
          .error .invalidJson) ∧
      (∀ v, jsonParse "not json".toList = some v →
        safeBase64DecodeJson (safeBase64Encode "not json".toList) = .ok v) ∧
      Base64Error.invalidJson ≠ Base64Error.invalidBase64) :=
  ⟨rfl, safeBase64DecodeJson_taxonomy _ _ rfl⟩

/-- C10: an input that normalizes to the empty string — the empty string
itself or any whitespace-only input — is rejected with the invalid-base64
error, although its normalized length is divisible by 4, it contains no
character outside the alphabet and its padding is not incorrect; decode
never returns a value for such inputs. -/
theorem safeBase64Decode_rejects_normalized_empty (s : List Char)
    (h : stripWhitespace s = []) :
    safeBase64Decode s = .error .invalidBase64 ∧
    (stripWhitespace s).length % 4 = 0 ∧
    containsInvalidBase64Char (stripWhitespace s) = false ∧
    incorrectPadding (stripWhitespace s) = false := by
  refine ⟨(safeBase64Decode_eq_error_iff s).mpr (Or.inl h), ?_, ?_, ?_⟩
  · rw [h]
    rfl
  · rw [h]
    rfl
  · rw [h]
    rfl

theorem safeBase64Decode_rejects_normalized_empty_witness :
    stripWhitespace "".toList = [] ∧
    safeBase64Decode "".toList = .error .invalidBase64 ∧
    stripWhitespace " \t\n".toList = [] ∧
    safeBase64Decode " \t\n".toList = .error .invalidBase64 :=
  ⟨rfl, (safeBase64Decode_rejects_normalized_empty "".toList rfl).1,
   rfl, (safeBase64Decode_rejects_normalized_empty " \t\n".toList rfl).1⟩

def payloadFix : PaymentPayload :=
  ⟨1, "exact", "base-sepolia", .obj [("signature", .str "0xsig")]⟩

theorem decodePaymentHeader_encode_witness :
    WellFormedPayload payloadFix = true ∧
    decodePaymentHeader (encodePaymentHeader payloadFix) = .ok payloadFix := by
  have hwf : WellFormedPayload payloadFix = true := by
    simp only [WellFormedPayload, payloadFix, paymentPayloadToJson]
    norm_num
    simp [stringify.eq_def, stringifyFields.eq_def, stringifyItems.eq_def,
      stringifyString, stringifyInt, stringifyNat, escapeChar, hexDigitChar,
      decDigitChar]
    exact ⟨by decide, by decide⟩
  exact ⟨hwf, decodePaymentHeader_encode payloadFix hwf⟩

end X402